import Mathlib

set_option maxRecDepth 40000

/-!
Verification of the fractal-thinking analysis engine.

This file is a shallow embedding of the core of the `FractalThinkingServer`
class (thought tree, change tracker, pattern analyzer, emergent-property
synthesizer, pattern-strength scorer, analysis cache, summary codec) together
with proofs about the embedded operations.

Modelling conventions:
* JavaScript numbers are modelled as exact rationals.  Because the analysis
  code only ever divides by nonzero quantities on its reachable paths, we use
  unreduced fractions (`JSNum`, a pair of an integer numerator and a natural
  denominator) so that every embedded operation computes inside the kernel;
  the rational value of a `JSNum` is exposed through `JSNum.toRat`.
* `Math.max(...xs)` over a possibly-empty spread can produce `-Infinity` in
  JavaScript.  That value propagates through `+`, `*` (by a positive
  constant), `/` and comparisons.  We model such possibly-infinite numbers by
  `JVal` (`negInf` or a finite `JSNum`), mirroring exactly the JavaScript
  semantics of `-Infinity` on the operations the source performs on it.
* JavaScript objects used as string-keyed maps (the two caches) and the
  `Map`/`Set` objects (pattern accumulator, sibling sets, scale sets) are
  modelled as insertion-ordered association lists without duplicate keys,
  with in-place update on existing keys — the same observable behaviour.
* `Array.prototype.sort` is guaranteed stable in modern JavaScript; we model
  it by a stable insertion sort (`stableSortBy`), which produces the same
  list as any stable sort for a total transitive comparator.
* `Date.now()` is modelled by an explicit `now : Nat` argument; all the
  `Date.now()` reads inside one invocation are identified, matching the
  single-threaded request-at-a-time execution model.
* A JavaScript runtime crash (the non-null assertion `!` applied to `null`)
  is modelled by returning `none` from `analyzeDepth`.
-/

/-! ## JavaScript numbers as unreduced rationals -/

/-- A finite JavaScript number, modelled as the exact rational
`num / den` (unreduced, so that all arithmetic is kernel-computable).
All values constructed by the embedded code keep `den` positive. -/
structure JSNum where
  num : Int
  den : Nat
deriving DecidableEq, Repr

/-- The rational value of a `JSNum`. -/
def JSNum.toRat (x : JSNum) : ℚ := (x.num : ℚ) / (x.den : ℚ)

instance : OfNat JSNum n := ⟨⟨n, 1⟩⟩

def JSNum.ofNat (n : Nat) : JSNum := ⟨n, 1⟩

def JSNum.ofInt (z : Int) : JSNum := ⟨z, 1⟩

def JSNum.add (a b : JSNum) : JSNum := ⟨a.num * b.den + b.num * a.den, a.den * b.den⟩

def JSNum.sub (a b : JSNum) : JSNum := ⟨a.num * b.den - b.num * a.den, a.den * b.den⟩

def JSNum.mul (a b : JSNum) : JSNum := ⟨a.num * b.num, a.den * b.den⟩

/-- JavaScript division.  Division by (exact) zero yields `±Infinity` in
JavaScript; that case is unreachable on every embedded code path (all
divisors are bounded below by positive constants or `Math.max(1, _)`),
so we return `0` there to keep the function total. -/
def JSNum.div (a b : JSNum) : JSNum :=
  if b.num = 0 then ⟨0, 1⟩
  else if b.num < 0 then ⟨-(a.num * b.den), a.den * b.num.natAbs⟩
  else ⟨a.num * b.den, a.den * b.num.natAbs⟩

/-- Comparison `a <= b` on values (denominators are positive on all
constructed values, so cross-multiplication is order-preserving). -/
def JSNum.le (a b : JSNum) : Bool := a.num * b.den ≤ b.num * a.den

def JSNum.lt (a b : JSNum) : Bool := a.num * b.den < b.num * a.den

/-- JavaScript `===` on numbers (value equality). -/
def JSNum.eq (a b : JSNum) : Bool := a.num * b.den = b.num * a.den

/-- `Math.min` on two finite numbers. -/
def JSNum.min (a b : JSNum) : JSNum := if JSNum.le a b then a else b

/-- `Math.max` on two finite numbers. -/
def JSNum.max (a b : JSNum) : JSNum := if JSNum.le a b then b else a

/-- `x.toFixed(0)` as an integer: round to the nearest integer, ties
towards `+∞` (the ECMAScript `toFixed` picks the larger candidate on a
tie).  For `x = n/d` with `d > 0` this is `⌊x + 1/2⌋ = (2n + d).fdiv (2d)`. -/
def JSNum.toFixed0 (x : JSNum) : Int := Int.fdiv (2 * x.num + x.den) (2 * x.den)

/-- A JavaScript number that may be `-Infinity` (the result of
`Math.max(...)` over an empty spread, and anything computed from it). -/
inductive JVal where
  | negInf
  | fin (q : JSNum)
deriving DecidableEq, Repr

/-- `Math.max(...xs)` over a list of finite numbers: `-Infinity` when the
list is empty. -/
def jsMaxSpread (l : List JSNum) : JVal :=
  l.foldl (fun acc x => match acc with
    | .negInf => .fin x
    | .fin m => .fin (JSNum.max m x)) .negInf

/-- Map a finite-to-finite function over a `JVal` when the JavaScript
operation sends `-Infinity` to `-Infinity` (addition of a finite constant,
multiplication or division by a positive constant). -/
def JVal.map (f : JSNum → JSNum) : JVal → JVal
  | .negInf => .negInf
  | .fin q => .fin (f q)

/-- JavaScript `a + b` where either side may be `-Infinity`
(`-Infinity + finite = -Infinity`; `-Infinity + -Infinity = -Infinity`). -/
def JVal.add : JVal → JVal → JVal
  | .negInf, _ => .negInf
  | _, .negInf => .negInf
  | .fin a, .fin b => .fin (JSNum.add a b)

/-- JavaScript `a / b` for a finite `a` and possibly `-Infinity` `b`:
`finite / -Infinity = -0`, which as an exact rational is `0`. -/
def jsDivByJVal (a : JSNum) : JVal → JSNum
  | .negInf => ⟨0, 1⟩
  | .fin q => JSNum.div a q

/-- JavaScript `a > b` for finite `a` and possibly `-Infinity` `b`
(everything is greater than `-Infinity`). -/
def jsGtJVal (a : JSNum) : JVal → Bool
  | .negInf => true
  | .fin q => JSNum.lt q a

/-- `Math.max` where the first argument may be `-Infinity`. -/
def JVal.maxFin : JVal → JSNum → JVal
  | .negInf, b => .fin b
  | .fin a, b => .fin (JSNum.max a b)

/-- `Math.min` where the first argument may be `-Infinity`. -/
def JVal.minFin : JVal → JSNum → JVal
  | .negInf, _ => .negInf
  | .fin a, b => .fin (JSNum.min a b)

/-! ## Insertion-ordered maps and sets, stable sort -/

/-- Lookup in an insertion-ordered association list (JavaScript object /
`Map.get`). -/
def mapGet (l : List (String × α)) (k : String) : Option α :=
  match l.find? (fun kv => kv.1 = k) with
  | some kv => some kv.2
  | none => none

/-- `Map.set` / object assignment: update in place when the key exists,
otherwise append (JavaScript objects and Maps preserve insertion order). -/
def mapSet : List (String × α) → String → α → List (String × α)
  | [], k, v => [(k, v)]
  | (k0, v0) :: rest, k, v =>
    if k0 = k then (k, v) :: rest else (k0, v0) :: mapSet rest k v

/-- `delete obj[k]` on a JavaScript object. -/
def mapDelete (l : List (String × α)) (k : String) : List (String × α) :=
  l.filter (fun kv => kv.1 ≠ k)

/-- `Set.add` on a `Set<number>` (insert at the end if absent). -/
def natSetAdd (s : List Nat) (d : Nat) : List Nat :=
  if s.contains d then s else s ++ [d]

/-- `Set.add` on a `Set<string>`. -/
def strSetAdd (s : List String) (k : String) : List String :=
  if s.contains k then s else s ++ [k]

/-- Insert `x` into a list after every element `y` with `le y x`
(the insertion step of a stable ascending insertion sort). -/
def insertBy (le : α → α → Bool) : List α → α → List α
  | [], x => [x]
  | y :: ys, x => if le y x then y :: insertBy le ys x else x :: y :: ys

/-- Stable sort, ascending with respect to `le`.  For a transitive, total
comparator this produces the same list as JavaScript's (stable)
`Array.prototype.sort`. -/
def stableSortBy (le : α → α → Bool) (l : List α) : List α :=
  l.foldl (fun acc x => insertBy le acc x) []

/-! ## Decimal rendering and `parseInt` -/

/-- Is this an ASCII digit? -/
def isDigitChar (c : Char) : Bool := decide ('0' ≤ c) && decide (c ≤ '9')

def digitChar (n : Nat) : Char := Char.ofNat (48 + n)

def digitVal (c : Char) : Nat := c.toNat - 48

/-- Decimal rendering of a natural number, fuel-based so that it computes
by kernel reduction. -/
def natRenderAux : Nat → Nat → List Char
  | 0, _ => []
  | fuel + 1, n =>
    if n < 10 then [digitChar n]
    else natRenderAux fuel (n / 10) ++ [digitChar (n % 10)]

/-- The decimal digits of a natural number (template-literal rendering of a
nonnegative integer JavaScript number). -/
def natRender (n : Nat) : List Char := natRenderAux (n + 1) n

/-- Template-literal rendering of an integer JavaScript number. -/
def intRender (z : Int) : List Char :=
  if z < 0 then '-' :: natRender z.natAbs else natRender z.natAbs

/-- Fold decimal digits left to right onto an accumulator. -/
def foldDigits (l : List Char) (acc : Nat) : Nat :=
  l.foldl (fun a c => a * 10 + digitVal c) acc

/-- Parse a leading run of decimal digits; `none` when the first character
is not a digit. -/
def parseLeadingNat (l : List Char) : Option Nat :=
  match l with
  | [] => none
  | c :: _ =>
    if isDigitChar c then some (foldDigits (l.takeWhile isDigitChar) 0) else none

/-- JavaScript `parseInt` (radix 10, no exotic inputs): skip leading
spaces, optional sign, then a leading digit run; `NaN` is `none`. -/
def jsParseInt (l : List Char) : Option Int :=
  let l := l.dropWhile (fun c => c = ' ')
  match l with
  | '-' :: rest => (parseLeadingNat rest).map (fun n => -(n : Int))
  | '+' :: rest => (parseLeadingNat rest).map (fun n => (n : Int))
  | _ => (parseLeadingNat l).map (fun n => (n : Int))

/-! ## String helpers mirroring the JavaScript string methods used -/

/-- `String.prototype.split(sep)` for a single-character separator. -/
def splitOnChar (c : Char) : List Char → List (List Char)
  | [] => [[]]
  | x :: xs =>
    if x = c then [] :: splitOnChar c xs
    else match splitOnChar c xs with
      | [] => [[x]]
      | h :: t => (x :: h) :: t

/-- `Array.prototype.join(sep)` for strings. -/
def joinSep (sep : List Char) : List (List Char) → List Char
  | [] => []
  | [p] => p
  | p :: ps => p ++ sep ++ joinSep sep ps

/-- `s.slice(n)` (drop the first `n` characters, clamped). -/
def jsSliceFrom (n : Nat) (l : List Char) : List Char := l.drop n

/-- `s.slice(a, -b)` (drop the first `a` and the last `b` characters,
clamped). -/
def jsSliceDropEnd (a b : Nat) (l : List Char) : List Char :=
  (l.take (l.length - b)).drop a

/-- `String.prototype.trim` (ASCII space is the only whitespace occurring
in the embedded strings). -/
def jsTrim (l : List Char) : List Char :=
  ((l.dropWhile (fun c => c = ' ')).reverse.dropWhile (fun c => c = ' ')).reverse

/-- `String.prototype.includes` (substring test). -/
def jsIncludesAux : List Char → List Char → Bool
  | s, pat =>
    if pat.isPrefixOf s then true
    else match s with
      | [] => false
      | _ :: rest => jsIncludesAux rest pat

/-- `s.includes(pat)` on strings. -/
def jsIncludes (s pat : String) : Bool := jsIncludesAux s.data pat.data

/-- `String.prototype.toLowerCase` (ASCII). -/
def jsToLower (s : String) : String := String.mk (s.data.map Char.toLower)

/-! ## The thought tree (`FractalThought`) -/

/-- A node of the thought tree, mirroring the `FractalThought` interface. -/
inductive FThought where
  | node (thought thoughtId : String) (depth : Nat) (parentId : Option String)
      (subThoughts : List FThought) (isComplete needsDeeperAnalysis : Bool)
      (createdAt : String)

def FThought.thought : FThought → String
  | .node t _ _ _ _ _ _ _ => t

def FThought.thoughtId : FThought → String
  | .node _ i _ _ _ _ _ _ => i

def FThought.depth : FThought → Nat
  | .node _ _ d _ _ _ _ _ => d

def FThought.parentId : FThought → Option String
  | .node _ _ _ p _ _ _ _ => p

def FThought.subThoughts : FThought → List FThought
  | .node _ _ _ _ s _ _ _ => s

def FThought.isComplete : FThought → Bool
  | .node _ _ _ _ _ c _ _ => c

def FThought.needsDeeperAnalysis : FThought → Bool
  | .node _ _ _ _ _ _ n _ => n

/-! ## Analysis result data model (`FractalAnalysis`) -/

/-- One step of a pattern's evolution trace. -/
structure EvolStep where
  depth : Nat
  variation : String
  confidence : JSNum
deriving DecidableEq, Repr

/-- The per-key accumulator value of the pattern `Map` inside
`identifyRecursivePatterns`. -/
structure PatData where
  occurrences : Nat
  scales : List Nat
  evolution : List EvolStep
  crossBranchOccurrences : Nat
deriving DecidableEq, Repr

/-- An entry of `fractalMetrics.recursivePatterns`. -/
structure RecursivePattern where
  type : String
  occurrences : Nat
  scales : List Nat
  evolution : List EvolStep
  crossBranchOccurrences : Nat
  confidence : JSNum
deriving DecidableEq, Repr

/-- An entry of `fractalMetrics.emergentProperties`. -/
structure EmergentProperty where
  property : String
  strength : JSNum
  relatedPatterns : List String
deriving DecidableEq, Repr

/-- `fractalMetrics`.  `patternStrength` is a `JVal` because
`calculatePatternStrength` can produce `-Infinity` (see
`calculatePatternStrength` below). -/
structure FractalMetrics where
  branchingFactor : JSNum
  depthConsistency : JSNum
  crossBranchSimilarity : JSNum
  patternStrength : JVal
  recursivePatterns : List RecursivePattern
  emergentProperties : List EmergentProperty
deriving DecidableEq, Repr

/-- The `status` union type. -/
inductive FStatus where
  | incomplete
  | partiallyComplete
  | complete
deriving DecidableEq, Repr

/-- The four-field narrative summary. -/
structure FSummary where
  complexSystems : String
  patternIdentification : String
  forecasting : String
  innovation : String
deriving DecidableEq, Repr

/-- The `FractalAnalysis` interface. -/
structure FractalAnalysis where
  maxDepth : Nat
  unresolvedCount : Nat
  totalCount : Nat
  completionRatio : JSNum
  status : FStatus
  needsAttention : Bool
  fractalMetrics : FractalMetrics
  summary : FSummary
deriving DecidableEq, Repr

/-! ## Pattern analyzer -/

mutual
/-- `calculateBranchingFactor`. -/
def calculateBranchingFactor (t : FThought) : JSNum :=
  match t with
  | .node _ _ _ _ subs _ _ _ =>
    if subs.length = 0 then 0
    else
      let directBranching := JSNum.ofNat subs.length
      let subBranching := branchingFactorList subs
      JSNum.div (JSNum.add directBranching (subBranching.foldl JSNum.add 0))
        (JSNum.ofNat (subBranching.length + 1))
def branchingFactorList : List FThought → List JSNum
  | [] => []
  | c :: cs => calculateBranchingFactor c :: branchingFactorList cs
end

mutual
/-- `getMaxDepth`. -/
def getMaxDepth (t : FThought) : Nat :=
  match t with
  | .node _ _ d _ subs _ _ _ =>
    if subs.length = 0 then d
    else (maxDepthList subs).foldl Nat.max 0
def maxDepthList : List FThought → List Nat
  | [] => []
  | c :: cs => getMaxDepth c :: maxDepthList cs
end

/-- `calculateDepthConsistency`. -/
def calculateDepthConsistency (t : FThought) : JSNum :=
  if t.subThoughts.length = 0 then 1
  else
    let depths := (maxDepthList t.subThoughts).map JSNum.ofNat
    let avgDepth := JSNum.div (depths.foldl JSNum.add 0) (JSNum.ofNat depths.length)
    let variance := JSNum.div
      (depths.foldl (fun a b => JSNum.add a (JSNum.mul (JSNum.sub b avgDepth) (JSNum.sub b avgDepth))) 0)
      (JSNum.ofNat depths.length)
    JSNum.div 1 (JSNum.add 1 variance)

/-- One entry of the `patternTypes` catalogue inside
`analyzePatternRecursively`. -/
structure PatternTypeSpec where
  type : String
  test : FThought → Bool
  variations : List (String × (FThought → Bool))

/-- The fixed, ordered pattern catalogue. -/
def patternTypes : List PatternTypeSpec :=
  [ { type := "expansion"
    , test := fun t => 0 < t.subThoughts.length
    , variations :=
        [ ("balanced", fun t => 2 ≤ t.subThoughts.length && t.subThoughts.length ≤ 4)
        , ("broad", fun t => 4 < t.subThoughts.length)
        , ("focused", fun t => t.subThoughts.length = 1) ] }
  , { type := "completion"
    , test := fun t => t.isComplete
    , variations :=
        [ ("terminal", fun t => t.isComplete && t.subThoughts.length = 0)
        , ("composite", fun t => t.isComplete && 0 < t.subThoughts.length)
        , ("partial", fun t => t.isComplete && t.subThoughts.any (fun sub => !sub.isComplete)) ] }
  , { type := "deepening"
    , test := fun t => t.needsDeeperAnalysis
    , variations :=
        [ ("active", fun t => t.needsDeeperAnalysis && !t.isComplete)
        , ("refined", fun t => t.needsDeeperAnalysis && t.isComplete)
        , ("cascading", fun t => t.needsDeeperAnalysis && t.subThoughts.all (fun sub => sub.needsDeeperAnalysis)) ] }
  , { type := "branching"
    , test := fun t => 2 < t.subThoughts.length
    , variations :=
        [ ("divergent", fun t => t.subThoughts.any (fun sub => 0 < sub.subThoughts.length))
        , ("parallel", fun t => t.subThoughts.all (fun sub => sub.subThoughts.length = 0))
        , ("hybrid", fun t => t.subThoughts.any (fun sub => sub.subThoughts.length = 0) &&
            t.subThoughts.any (fun sub => 0 < sub.subThoughts.length)) ] }
  , { type := "convergence"
    , test := fun t => 1 < t.subThoughts.length &&
        t.subThoughts.any (fun sub => sub.isComplete) &&
        t.subThoughts.any (fun sub => !sub.isComplete)
    , variations :=
        [ ("early", fun t => (t.subThoughts.filter (fun sub => sub.isComplete)).length >
            (t.subThoughts.filter (fun sub => !sub.isComplete)).length)
        , ("late", fun t => (t.subThoughts.filter (fun sub => !sub.isComplete)).length >
            (t.subThoughts.filter (fun sub => sub.isComplete)).length)
        , ("balanced", fun t => (t.subThoughts.filter (fun sub => sub.isComplete)).length =
            (t.subThoughts.filter (fun sub => !sub.isComplete)).length) ] }
  , { type := "transformation"
    , test := fun t => 0 < t.subThoughts.length &&
        t.subThoughts.all (fun sub => sub.needsDeeperAnalysis)
    , variations :=
        [ ("complete", fun t => t.isComplete && t.subThoughts.all (fun sub => sub.needsDeeperAnalysis))
        , ("partial", fun t => !t.isComplete && t.subThoughts.all (fun sub => sub.needsDeeperAnalysis))
        , ("mixed", fun t => t.subThoughts.any (fun sub => sub.isComplete) &&
            t.subThoughts.all (fun sub => sub.needsDeeperAnalysis)) ] } ]

/-- The per-occurrence confidence score (`confidenceFactors` and their
mean). -/
def occurrenceConfidence (t : FThought) : JSNum :=
  let depthFactor := JSNum.min 1 (JSNum.div (JSNum.ofNat t.depth) (JSNum.ofNat 5))
  let subthoughtRatio :=
    if 0 < t.subThoughts.length then
      JSNum.min 1 (JSNum.div (JSNum.ofNat t.subThoughts.length) (JSNum.ofNat 4))
    else 0
  let completionStatus : JSNum := if t.isComplete then 1 else ⟨5, 10⟩
  let analysisNeed : JSNum := if t.needsDeeperAnalysis then ⟨7, 10⟩ else 1
  JSNum.div
    (JSNum.add (JSNum.add (JSNum.add depthFactor subthoughtRatio) completionStatus) analysisNeed)
    (JSNum.ofNat 4)

/-- The `patternTypes.forEach` body of `analyzePatternRecursively`: record
every matching pattern type for one node. -/
def processNodePatterns (t : FThought) (parentPattern : Option String)
    (patterns : List (String × PatData)) (siblingPatterns : List String) :
    List (String × PatData) × List String :=
  patternTypes.foldl (fun acc spec =>
    let (pats, sibs) := acc
    if spec.test t then
      let variation := ((spec.variations.find? (fun v => v.2 t)).map (fun v => v.1)).getD "basic"
      let key := match parentPattern with
        | some p => p ++ "->" ++ spec.type
        | none => spec.type
      let confidence := occurrenceConfidence t
      let existing := (mapGet pats key).getD ⟨0, [], [], 0⟩
      let updated : PatData :=
        { occurrences := existing.occurrences + 1
        , scales := natSetAdd existing.scales t.depth
        , evolution := existing.evolution ++ [⟨t.depth, variation, confidence⟩]
        , crossBranchOccurrences :=
            if sibs.contains key then existing.crossBranchOccurrences + 1
            else existing.crossBranchOccurrences }
      (mapSet pats key updated, strSetAdd sibs key)
    else acc) (patterns, siblingPatterns)

mutual
/-- `analyzePatternRecursively`: the outer `patterns` map is threaded
through the whole traversal; the sibling `Set` passed in by the parent is
mutated (returned updated), and each node creates a fresh sibling set for
its own children. -/
def analyzePatternRecursively (t : FThought) (parentPattern : Option String)
    (patterns : List (String × PatData)) (siblingPatterns : List String) :
    List (String × PatData) × List String :=
  let (patterns1, siblingPatterns1) := processNodePatterns t parentPattern patterns siblingPatterns
  match t with
  | .node _ _ _ _ subs _ _ _ => (analyzeChildren subs patterns1 [], siblingPatterns1)
def analyzeChildren : List FThought → List (String × PatData) → List String →
    List (String × PatData)
  | [], pats, _ => pats
  | c :: cs, pats, sibs =>
    let pp := match pats.head? with
      | some kv => some kv.1
      | none => none
    let (pats1, sibs1) := analyzePatternRecursively c pp pats sibs
    analyzeChildren cs pats1 sibs1
end

/-- Sum of the confidences of an evolution trace. -/
def sumConfidence (l : List EvolStep) : JSNum := l.foldl (fun a e => JSNum.add a e.confidence) 0

/-- `identifyRecursivePatterns`: run the traversal, convert the `Map`
entries (in insertion order) and sort descending by overall confidence
(JavaScript's sort is stable). -/
def identifyRecursivePatterns (t : FThought) : List RecursivePattern :=
  let (patterns, _) := analyzePatternRecursively t none [] []
  stableSortBy (fun a b => JSNum.le b.confidence a.confidence)
    (patterns.map (fun kv =>
      { type := kv.1
      , occurrences := kv.2.occurrences
      , scales := kv.2.scales
      , evolution := kv.2.evolution
      , crossBranchOccurrences := kv.2.crossBranchOccurrences
      , confidence := JSNum.div (sumConfidence kv.2.evolution)
          (JSNum.ofNat (Nat.max 1 kv.2.evolution.length)) }))

/-! ## Emergent property synthesizer -/

/-- `new Set(list).size`. -/
def distinctCount (l : List String) : Nat :=
  (l.foldl (fun acc s => strSetAdd acc s) []).length

/-- Sum a natural-valued field over a pattern list (the `reduce` calls). -/
def sumPatNat (l : List RecursivePattern) (f : RecursivePattern → Nat) : JSNum :=
  l.foldl (fun acc p => JSNum.add acc (JSNum.ofNat (f p))) 0

/-- The `calculateInteractionStrength` helper. -/
def calculateInteractionStrength (patterns : List RecursivePattern)
    (patternTypeNames : List String) (depthRange : JVal) : JSNum :=
  let relevantPatterns := patterns.filter (fun p =>
    patternTypeNames.any (fun ty => jsIncludes p.type ty))
  let occurrenceStrength := JSNum.div (sumPatNat relevantPatterns (fun p => p.occurrences))
    (JSNum.ofNat (10 * patternTypeNames.length))
  let scaleStrength := jsDivByJVal (sumPatNat relevantPatterns (fun p => p.scales.length))
    (JVal.map (fun d => JSNum.mul d (JSNum.ofNat patternTypeNames.length)) depthRange)
  let crossBranchStrength := JSNum.div
    (sumPatNat relevantPatterns (fun p => p.crossBranchOccurrences))
    (JSNum.ofNat (5 * patternTypeNames.length))
  let evolutionStrength := JSNum.div
    (sumPatNat relevantPatterns (fun p => distinctCount (p.evolution.map (fun e => e.variation))))
    (JSNum.ofNat (3 * patternTypeNames.length))
  JSNum.min 1
    (JSNum.add
      (JSNum.add
        (JSNum.add (JSNum.mul occurrenceStrength ⟨3, 10⟩) (JSNum.mul scaleStrength ⟨3, 10⟩))
        (JSNum.mul crossBranchStrength ⟨2, 10⟩))
      (JSNum.mul evolutionStrength ⟨2, 10⟩))

/-- Maximum of a list of naturals (used only on nonempty scale lists). -/
def natListMax (l : List Nat) : Nat := l.foldl Nat.max 0

/-- Minimum of a nonempty list of naturals. -/
def natListMin : List Nat → Nat
  | [] => 0
  | x :: xs => xs.foldl Nat.min x

/-- The per-pattern contribution inside the Cross-Scale Resonance reduce:
`Math.max(...p.scales) - Math.min(...p.scales) > 0 ? p.crossBranchOccurrences / 5 : 0`.
For an empty scale list JavaScript computes `-Infinity - Infinity = -Infinity`,
which is not `> 0`, so the contribution is `0` — scale lists of real
pattern records are never empty, but the empty case is modelled anyway. -/
def crossScaleContribution (p : RecursivePattern) : JSNum :=
  match p.scales with
  | [] => 0
  | x :: xs =>
    if 0 < natListMax (x :: xs) - natListMin (x :: xs) then
      JSNum.div (JSNum.ofNat p.crossBranchOccurrences) (JSNum.ofNat 5)
    else 0

/-- `identifyEmergentProperties`.  (The `node` argument is unused in the
source body as well.) -/
def identifyEmergentProperties (_node : FThought)
    (patterns : List RecursivePattern) : List EmergentProperty :=
  let patternTypeNames := patterns.map (fun p => p.type)
  let depthRange := JVal.map (fun m => JSNum.add m 1)
    (jsMaxSpread (patterns.flatMap (fun p => p.scales.map JSNum.ofNat)))
  let properties : List EmergentProperty := []
  let properties :=
    if patternTypeNames.any (fun p => jsIncludes p "expansion") &&
        patternTypeNames.any (fun p => jsIncludes p "deepening") then
      properties ++
        [{ property := "Systematic Exploration"
         , strength := calculateInteractionStrength patterns ["expansion", "deepening"] depthRange
         , relatedPatterns := (patterns.filter (fun p =>
             jsIncludes p.type "expansion" || jsIncludes p.type "deepening")).map (fun p => p.type) }]
    else properties
  let properties :=
    if patternTypeNames.any (fun p => jsIncludes p "completion") &&
        patternTypeNames.any (fun p => jsIncludes p "deepening") then
      properties ++
        [{ property := "Iterative Refinement"
         , strength := calculateInteractionStrength patterns ["completion", "deepening"] depthRange
         , relatedPatterns := (patterns.filter (fun p =>
             jsIncludes p.type "completion" || jsIncludes p.type "deepening")).map (fun p => p.type) }]
    else properties
  let properties :=
    if patternTypeNames.any (fun p => jsIncludes p "branching") &&
        patternTypeNames.any (fun p => jsIncludes p "completion") then
      properties ++
        [{ property := "Balanced Development"
         , strength := calculateInteractionStrength patterns ["branching", "completion"] depthRange
         , relatedPatterns := (patterns.filter (fun p =>
             jsIncludes p.type "branching" || jsIncludes p.type "completion")).map (fun p => p.type) }]
    else properties
  let properties :=
    if patterns.any (fun p => 1 < p.evolution.length) then
      let strength := JSNum.div
        (patterns.foldl (fun acc p => JSNum.add acc
          (JSNum.div (JSNum.ofNat (distinctCount (p.evolution.map (fun e => e.variation))))
            (JSNum.ofNat 3))) 0)
        (JSNum.ofNat patterns.length)
      properties ++
        [{ property := "Pattern Evolution"
         , strength := JSNum.min 1 strength
         , relatedPatterns := (patterns.filter (fun p => 1 < p.evolution.length)).map (fun p => p.type) }]
    else properties
  let properties :=
    if patterns.any (fun p => 1 < p.scales.length) then
      let strength := JSNum.div
        (patterns.foldl (fun acc p => JSNum.add acc (crossScaleContribution p)) 0)
        (JSNum.ofNat patterns.length)
      properties ++
        [{ property := "Cross-Scale Resonance"
         , strength := JSNum.min 1 strength
         , relatedPatterns := (patterns.filter (fun p => 1 < p.scales.length)).map (fun p => p.type) }]
    else properties
  properties

/-! ## Pattern strength scorer -/

/-- `calculatePatternStrength`.  `Math.max(...recursivePatterns.flatMap(p => p.scales))`
is `-Infinity` when the pattern list is empty, and that value propagates
through the final weighted sum — hence the `JVal` result. -/
def calculatePatternStrength (node : FThought)
    (recursivePatterns : List RecursivePattern)
    (emergentProperties : List EmergentProperty) : JVal :=
  let baseStrength := JSNum.mul
    (JSNum.mul (calculateBranchingFactor node) (calculateDepthConsistency node))
    (JSNum.div
      (JSNum.ofNat (node.subThoughts.length -
        (node.subThoughts.filter (fun t => !t.isComplete)).length))
      (JSNum.ofNat (Nat.max 1 node.subThoughts.length)))
  let patternDiversity := JSNum.div (JSNum.ofNat recursivePatterns.length) (JSNum.ofNat 4)
  let maxScale := jsMaxSpread (recursivePatterns.flatMap (fun p => p.scales.map JSNum.ofNat))
  let scaleScore := JVal.map (fun m => JSNum.div m (JSNum.ofNat 5)) maxScale
  let emergentStrength := JSNum.div
    (emergentProperties.foldl (fun acc prop => JSNum.add acc prop.strength) 0)
    (JSNum.ofNat (Nat.max 1 emergentProperties.length))
  JVal.add
    (JVal.add
      (JVal.add (.fin (JSNum.mul baseStrength ⟨4, 10⟩)) (.fin (JSNum.mul patternDiversity ⟨2, 10⟩)))
      (JVal.map (fun s => JSNum.mul s ⟨2, 10⟩) scaleScore))
    (.fin (JSNum.mul emergentStrength ⟨2, 10⟩))

/-! ## Narrative summary generator -/

def natStr (n : Nat) : String := String.mk (natRender n)

def intStr (z : Int) : String := String.mk (intRender z)

/-- `(x * 100).toFixed(0)` as a string. -/
def pctStr (x : JSNum) : String := intStr (JSNum.toFixed0 (JSNum.mul x ⟨100, 1⟩))

/-- `(x * 100).toFixed(0)` for a possibly-`-Infinity` value
(`(-Infinity).toFixed(0)` is the string `"-Infinity"`). -/
def pctStrJVal : JVal → String
  | .negInf => "-Infinity"
  | .fin q => pctStr q

/-- `Array.prototype.join` on strings. -/
def joinStrings (sep : String) : List String → String
  | [] => ""
  | [p] => p
  | p :: ps => p ++ sep ++ joinStrings sep ps

/-- `new Set(list).size` for numbers. -/
def distinctCountNat (l : List Nat) : Nat :=
  (l.foldl (fun acc d => natSetAdd acc d) []).length

/-- `JSNum.lt` flipped: JavaScript `a > b`. -/
def JSNum.gt (a b : JSNum) : Bool := JSNum.lt b a

/-- `generateFractalSummary`: the four deterministic narrative strings. -/
def generateFractalSummary (node : FThought) : FSummary :=
  let recursivePatterns := identifyRecursivePatterns node
  let emergentProperties := identifyEmergentProperties node recursivePatterns
  let significantPatterns :=
    (stableSortBy (fun a b => decide (b.occurrences ≤ a.occurrences)) recursivePatterns).take 2
  let patternEvolution := significantPatterns.map (fun p =>
    (p.type,
     (stableSortBy (fun a b => decide (a.depth ≤ b.depth)) p.evolution).map (fun e => e.variation),
     p.scales))
  let strongestProperties :=
    (stableSortBy (fun a b => JSNum.le b.strength a.strength) emergentProperties).take 2
  let decompositionLevels := distinctCountNat (recursivePatterns.flatMap (fun p => p.scales))
  let patternConsistency := calculateDepthConsistency node
  let systemComplexity := recursivePatterns.length * decompositionLevels
  let crossScalePatterns := recursivePatterns.filter (fun p => 0 < p.crossBranchOccurrences)
  let scaleInteractions := JSNum.div (JSNum.ofNat crossScalePatterns.length)
    (JSNum.ofNat (Nat.max 1 recursivePatterns.length))
  { complexSystems :=
      "\"" ++ node.thought ++ "\" demonstrates system decomposition across " ++
      natStr decompositionLevels ++ " levels, " ++
      "revealing " ++ natStr recursivePatterns.length ++
      " distinct patterns with a consistency of " ++ pctStr patternConsistency ++ "%. " ++
      "The system complexity score of " ++ natStr systemComplexity ++ " suggests " ++
      (if 10 < systemComplexity then "rich hierarchical structure"
       else if 5 < systemComplexity then "moderate layering"
       else "basic decomposition") ++ "."
  , patternIdentification :=
      "Analysis reveals " ++
      joinStrings " and " (significantPatterns.map (fun p =>
        p.type ++ " patterns occurring " ++ natStr p.occurrences ++ " times")) ++
      ", with " ++ natStr crossScalePatterns.length ++ " cross-scale relationships. " ++
      "Pattern evolution shows " ++
      joinStrings "; " (patternEvolution.map (fun pe =>
        pe.1 ++ " progressing through " ++ joinStrings " → " pe.2.1)) ++
      ", indicating " ++
      (if JSNum.gt scaleInteractions ⟨7, 10⟩ then "strong self-similarity"
       else if JSNum.gt scaleInteractions ⟨4, 10⟩ then "moderate pattern repetition"
       else "emerging self-similarity") ++ "."
  , forecasting :=
      "Based on pattern strength (" ++
      pctStrJVal (calculatePatternStrength node recursivePatterns emergentProperties) ++
      "%) " ++ "and emergent properties " ++
      joinStrings " and " (strongestProperties.map (fun p =>
        jsToLower p.property ++ " (" ++ pctStr p.strength ++ "%)")) ++
      ", the system suggests " ++
      (match strongestProperties.head? with
       | some p =>
         if JSNum.gt p.strength ⟨7, 10⟩ then "high predictability"
         else if JSNum.gt p.strength ⟨4, 10⟩ then "moderate predictability"
         else "developing predictability"
       | none => "developing predictability") ++
      " with " ++
      (if 2 < crossScalePatterns.length then "multiple stable trajectories"
       else if 0 < crossScalePatterns.length then "potential stable patterns"
       else "emerging stability patterns") ++ "."
  , innovation :=
      "Pattern analysis reveals scaling opportunities through " ++
      natStr (recursivePatterns.filter (fun p => 1 < p.scales.length)).length ++
      " multi-scale patterns and " ++
      natStr (emergentProperties.filter (fun p => JSNum.gt p.strength ⟨6, 10⟩)).length ++
      " strong emergent properties. Innovation potential exists in " ++
      joinStrings " and " (strongestProperties.map (fun p => jsToLower p.property)) ++
      ", with " ++
      (if 0 < crossScalePatterns.length then
        "cross-scale applications in " ++
          joinStrings ", " (crossScalePatterns.map (fun p => p.type))
       else "opportunities for pattern development") ++ "." }

/-! ## Summary codec (`AnalysisSummarizer`) -/

/-- JavaScript `n || 0` for a nonnegative integer. -/
def jsOrZeroNat (n : Nat) : Nat := if n = 0 then 0 else n

/-- JavaScript `x || 0` for a finite number (`0` is the only falsy exact
rational). -/
def jsOrZeroNum (x : JSNum) : JSNum := if JSNum.eq x 0 then 0 else x

/-- JavaScript `x || 0` where `x` may be `-Infinity` (which is truthy). -/
def jsOrZeroJVal : JVal → JVal
  | .negInf => .negInf
  | .fin q => .fin (jsOrZeroNum q)

/-- `AnalysisSummarizer.summarizeAnalysis`.  (The `!analysis ||
!analysis.fractalMetrics` guard cannot fire in the embedding, which always
receives a structurally complete value.) -/
def summarizeAnalysis (analysis : FractalAnalysis) : String :=
  let patterns := joinStrings ", "
    ((analysis.fractalMetrics.recursivePatterns.take 2).map (fun p =>
      p.type ++ "(" ++ natStr p.occurrences ++ ")"))
  let properties := joinStrings ", "
    ((analysis.fractalMetrics.emergentProperties.take 2).map (fun p =>
      p.property ++ "(" ++ pctStr p.strength ++ "%)"))
  joinStrings "|"
    [ "D" ++ natStr (jsOrZeroNat analysis.maxDepth)
    , "C" ++ pctStr (jsOrZeroNum analysis.completionRatio) ++ "%"
    , "P[" ++ patterns ++ "]"
    , "E[" ++ properties ++ "]"
    , "S" ++ pctStrJVal (jsOrZeroJVal analysis.fractalMetrics.patternStrength) ++ "%" ]

/-- The pattern records produced by `expandSummary` (`occurrences` is
`parseInt`'s result, possibly `NaN` = `none`). -/
structure ExpandedPattern where
  type : String
  occurrences : Option Int
  scales : List Nat
  evolution : List EvolStep
  crossBranchOccurrences : Nat
  confidence : JSNum
deriving DecidableEq, Repr

/-- The emergent-property records produced by `expandSummary`. -/
structure ExpandedProperty where
  property : String
  strength : Option JSNum
  relatedPatterns : List String
deriving DecidableEq, Repr

/-- The `fractalMetrics` part of `expandSummary`'s result. -/
structure ExpandedMetrics where
  branchingFactor : JSNum
  depthConsistency : JSNum
  crossBranchSimilarity : JSNum
  patternStrength : Option JSNum
  recursivePatterns : List ExpandedPattern
  emergentProperties : List ExpandedProperty
deriving DecidableEq, Repr

/-- The `Partial<FractalAnalysis>` produced by `expandSummary`
(`none` in a numeric field models `NaN`). -/
structure ExpandedSummary where
  maxDepth : Option Int
  completionRatio : Option JSNum
  fractalMetrics : ExpandedMetrics
deriving DecidableEq, Repr

/-- `field?.slice(n) || '0'`. -/
def sliceOrZero (o : Option (List Char)) (n : Nat) : List Char :=
  match o with
  | none => ['0']
  | some l =>
    let s := jsSliceFrom n l
    if s = [] then ['0'] else s

/-- `AnalysisSummarizer.expandSummary`. -/
def expandSummary (summary : String) : ExpandedSummary :=
  if summary = "" then
    -- `!summary` is true for the empty string: the all-zero default.
    { maxDepth := some 0
    , completionRatio := some 0
    , fractalMetrics :=
      { branchingFactor := 0, depthConsistency := 0, crossBranchSimilarity := 0
      , patternStrength := some 0, recursivePatterns := [], emergentProperties := [] } }
  else
    let parts := splitOnChar '|' summary.data
    let depth := parts.get? 0
    let completion := parts.get? 1
    let patterns := parts.get? 2
    let properties := parts.get? 3
    let strength := parts.get? 4
    let parsedPatterns := match patterns with
      | none => []
      | some pc => (splitOnChar ',' (jsSliceDropEnd 2 1 pc)).filter (fun s => s ≠ [])
    let parsedProperties := match properties with
      | none => []
      | some pc => (splitOnChar ',' (jsSliceDropEnd 2 1 pc)).filter (fun s => s ≠ [])
    { maxDepth := jsParseInt (sliceOrZero depth 1)
    , completionRatio := (jsParseInt (sliceOrZero completion 1)).map (fun z =>
        JSNum.div ⟨z, 1⟩ ⟨100, 1⟩)
    , fractalMetrics :=
      { branchingFactor := 0
      , depthConsistency := 0
      , crossBranchSimilarity := 0
      , patternStrength := (jsParseInt (sliceOrZero strength 1)).map (fun z =>
          JSNum.div ⟨z, 1⟩ ⟨100, 1⟩)
      , recursivePatterns := parsedPatterns.map (fun p =>
          let pieces := splitOnChar '(' p
          let ty := (pieces.get? 0).getD []
          let count := (pieces.get? 1).getD ['0']
          let cs := jsSliceDropEnd 0 1 count
          { type := String.mk (jsTrim ty)
          , occurrences := jsParseInt (if cs = [] then ['0'] else cs)
          , scales := []
          , evolution := []
          , crossBranchOccurrences := 0
          , confidence := 0 })
      , emergentProperties := parsedProperties.map (fun p =>
          let pieces := splitOnChar '(' p
          let prop := (pieces.get? 0).getD []
          let st := (pieces.get? 1).getD ('0' :: ['%'])
          let ss := jsSliceDropEnd 0 2 st
          { property := String.mk (jsTrim prop)
          , strength := (jsParseInt (if ss = [] then ['0'] else ss)).map (fun z =>
              JSNum.div ⟨z, 1⟩ ⟨100, 1⟩)
          , relatedPatterns := [] }) } }

/-! ## Server state: caches, stats, change tracker -/

/-- A `CachedAnalysis` entry.  The source declares `fullAnalysis` and
`accessCount` as optional, but `cacheAnalysis` — the only writer — always
provides both, so they are total here. -/
structure CachedAnalysis where
  timestamp : Nat
  summary : String
  key : String
  fullAnalysis : FractalAnalysis
  accessCount : Nat
deriving DecidableEq, Repr

/-- An `AggregateSummary` cache entry (only its timestamp matters to the
claims; the remaining fields are carried for completeness). -/
structure AggregateSummary where
  thoughtId : String
  timestamp : Nat
  summary : String
  childSummaries : List (String × String)
  totalBranches : Nat
  averageDepth : JSNum
  completionRate : JSNum
  patternStrength : JVal
deriving DecidableEq, Repr

/-- `CacheConfig`. -/
structure CacheConfig where
  baseExpirationMs : JSNum
  patternStrengthMultiplier : JSNum
  depthMultiplier : JSNum
  maxCacheSize : Nat
  minExpirationMs : JSNum
  maxExpirationMs : JSNum
deriving DecidableEq, Repr

/-- The constructor defaults of `FractalThinkingServer.cacheConfig`. -/
def defaultCacheConfig : CacheConfig :=
  { baseExpirationMs := ⟨5 * 60 * 1000, 1⟩
  , patternStrengthMultiplier := ⟨2, 1⟩
  , depthMultiplier := ⟨15, 10⟩
  , maxCacheSize := 1000
  , minExpirationMs := ⟨1 * 60 * 1000, 1⟩
  , maxExpirationMs := ⟨30 * 60 * 1000, 1⟩ }

/-- `CacheStats`. -/
structure CacheStats where
  hits : Nat
  misses : Nat
  evictions : Nat
  totalSize : Nat
deriving DecidableEq, Repr

/-- A `ThoughtChangeTracker` record. -/
structure ThoughtChangeTracker where
  lastModified : Nat
  subthoughtChanges : Bool
  lastAnalysis : Nat
deriving DecidableEq, Repr

/-- The mutable state of a `FractalThinkingServer` instance. -/
structure ServerState where
  thoughtTree : List FThought
  cacheConfig : CacheConfig
  cacheStats : CacheStats
  analysisCache : List (String × CachedAnalysis)
  aggregateCache : List (String × AggregateSummary)
  changeTracker : List (String × ThoughtChangeTracker)

/-! ## `findThought` -/

mutual
/-- The recursive depth-first search of `findThought`. -/
def findThoughtIn (id : String) : List FThought → Option FThought
  | [] => none
  | n :: rest =>
    if n.thoughtId = id then some n
    else match findThoughtInNode id n with
      | some found => some found
      | none => findThoughtIn id rest
def findThoughtInNode (id : String) : FThought → Option FThought
  | .node _ _ _ _ subs _ _ _ => findThoughtIn id subs
end

/-- `findThought(id)` called with the default `nodes = this.thoughtTree`:
`null`/empty ids are falsy, and `'root'` short-circuits to `thoughtTree[0]`. -/
def ServerState.findThought (st : ServerState) (id : String) : Option FThought :=
  if id = "" then none
  else if id = "root" then st.thoughtTree.head?
  else findThoughtIn id st.thoughtTree

/-! ## Change tracker -/

/-- `trackThoughtChange(thoughtId, includeSubthoughts)`. -/
def trackThoughtChange (now : Nat) (thoughtId : String) (includeSubthoughts : Bool)
    (st : ServerState) : ServerState :=
  let current := (mapGet st.changeTracker thoughtId).getD
    { lastModified := now, subthoughtChanges := false, lastAnalysis := 0 }
  let current :=
    { current with
      lastModified := now
      subthoughtChanges := if includeSubthoughts then true else current.subthoughtChanges }
  let st := { st with changeTracker := mapSet st.changeTracker thoughtId current }
  -- Propagate a change notification to the immediate parent (unconditionally).
  match st.findThought thoughtId with
  | some thought =>
    match thought.parentId with
    | some pid =>
      if pid = "" then st  -- `thought.parentId` is falsy for the empty string
      else
        let parentTracker := (mapGet st.changeTracker pid).getD
          { lastModified := now, subthoughtChanges := true, lastAnalysis := 0 }
        let parentTracker := { parentTracker with subthoughtChanges := true }
        { st with changeTracker := mapSet st.changeTracker pid parentTracker }
    | none => st
  | none => st

/-- `hasNodeChanged(node)`. -/
def hasNodeChanged (st : ServerState) (node : FThought) : Bool :=
  match mapGet st.changeTracker node.thoughtId with
  | none => true  -- no tracking info means treat as changed
  | some tracker =>
    if tracker.lastAnalysis < tracker.lastModified then true
    else if tracker.subthoughtChanges then true
    else false

/-- `markAnalyzed(thoughtId)` (a no-op when no tracker record exists). -/
def markAnalyzed (now : Nat) (thoughtId : String) (st : ServerState) : ServerState :=
  match mapGet st.changeTracker thoughtId with
  | some tracker =>
    let updated := { tracker with lastAnalysis := now, subthoughtChanges := false }
    { st with changeTracker := mapSet st.changeTracker thoughtId updated }
  | none => st

/-! ## Analysis cache -/

/-- `getCacheExpiration(analysis)`: the dynamic TTL.  A `-Infinity`
`patternStrength` makes the unclamped expiration `-Infinity`; the clamp
`Math.min(Math.max(e, min), max)` then yields `minExpirationMs`. -/
def getCacheExpiration (cfg : CacheConfig) (analysis : FractalAnalysis) : JVal :=
  let patternFactor := JVal.map
    (fun s => JSNum.add 1 (JSNum.mul s cfg.patternStrengthMultiplier))
    analysis.fractalMetrics.patternStrength
  let depthFactor := JSNum.add 1 (JSNum.mul (JSNum.ofNat analysis.maxDepth) cfg.depthMultiplier)
  let expiration := JVal.map
    (fun pf => JSNum.mul (JSNum.mul cfg.baseExpirationMs pf) depthFactor)
    patternFactor
  JVal.minFin (JVal.maxFin expiration cfg.minExpirationMs) cfg.maxExpirationMs

/-- The flattened `(key, lastAccess, isAnalysis)` view of both caches built
by `evictLeastUsedEntries`. -/
def residentEntries (st : ServerState) : List (String × Nat × Bool) :=
  st.analysisCache.map (fun kv => (kv.1, kv.2.timestamp, true)) ++
    st.aggregateCache.map (fun kv => (kv.1, kv.2.timestamp, false))

/-- The number of resident cache entries (`totalSize` as recomputed by the
cache management methods). -/
def totalResident (st : ServerState) : Nat :=
  st.analysisCache.length + st.aggregateCache.length

/-- `evictLeastUsedEntries(count)`: sort all entries of both caches by
last-access time ascending (stably) and delete the first `count`. -/
def evictLeastUsedEntries (count : Nat) (st : ServerState) : ServerState :=
  let entries := residentEntries st
  let sorted := stableSortBy (fun a b => decide (a.2.1 ≤ b.2.1)) entries
  let toEvict := sorted.take count
  let st :=
    { st with
      analysisCache := st.analysisCache.filter (fun kv =>
        ¬ toEvict.any (fun e => e.2.2 && e.1 = kv.1))
      aggregateCache := st.aggregateCache.filter (fun kv =>
        ¬ toEvict.any (fun e => !e.2.2 && e.1 = kv.1))
      cacheStats := { st.cacheStats with evictions := st.cacheStats.evictions + toEvict.length } }
  { st with cacheStats := { st.cacheStats with totalSize := totalResident st } }

/-- `manageCacheSize()`: when the resident entry count exceeds
`maxCacheSize`, evict the excess plus 10% headroom
(`Math.ceil(maxCacheSize * 0.1)` is exactly `⌈maxCacheSize / 10⌉` for the
integral configured sizes). -/
def manageCacheSize (st : ServerState) : ServerState :=
  let totalSize := totalResident st
  if st.cacheConfig.maxCacheSize < totalSize then
    let excessEntries := totalSize - st.cacheConfig.maxCacheSize
    evictLeastUsedEntries (excessEntries + (st.cacheConfig.maxCacheSize + 9) / 10) st
  else st

/-- `cacheAnalysis(thoughtId, analysis)`. -/
def cacheAnalysis (now : Nat) (thoughtId : String) (analysis : FractalAnalysis)
    (st : ServerState) : ServerState :=
  let st := manageCacheSize st
  let st :=
    { st with
      analysisCache := mapSet st.analysisCache thoughtId
        { timestamp := now
        , summary := summarizeAnalysis analysis
        , key := thoughtId
        , fullAnalysis := analysis
        , accessCount := 0 } }
  { st with cacheStats := { st.cacheStats with totalSize := totalResident st } }

/-- `getCachedAnalysis(thoughtId)`: miss on absence (count a miss), miss on
expiry (drop the entry, count a miss), otherwise a hit (bump the access
counter, refresh the timestamp, count a hit). -/
def getCachedAnalysis (now : Nat) (thoughtId : String) (st : ServerState) :
    Option FractalAnalysis × ServerState :=
  match mapGet st.analysisCache thoughtId with
  | none =>
    (none, { st with cacheStats := { st.cacheStats with misses := st.cacheStats.misses + 1 } })
  | some cached =>
    let expiration := getCacheExpiration st.cacheConfig cached.fullAnalysis
    if jsGtJVal (JSNum.ofInt ((now : Int) - (cached.timestamp : Int))) expiration then
      (none,
        { st with
          analysisCache := mapDelete st.analysisCache thoughtId
          cacheStats := { st.cacheStats with misses := st.cacheStats.misses + 1 } })
    else
      (some cached.fullAnalysis,
        { st with
          analysisCache := mapSet st.analysisCache thoughtId
            { cached with accessCount := cached.accessCount + 1, timestamp := now }
          cacheStats := { st.cacheStats with hits := st.cacheStats.hits + 1 } })

/-! ## Incremental analysis and `analyzeDepth` -/

/-- The four accumulators of `analyzeNodeIncremental`. -/
structure IncResult where
  maxDepth : Nat
  unresolvedCount : Nat
  totalCount : Nat
  hasUnresolvedWithDeeperAnalysis : Bool
deriving DecidableEq, Repr

mutual
/-- `analyzeNodeIncremental(node, previousAnalysis)`: reuse the previous
metrics when the node is unchanged, otherwise recount, consulting the
analysis cache for each sub-thought (which mutates the cache statistics —
the state is threaded through). -/
def analyzeNodeIncremental (now : Nat) (node : FThought)
    (previous : Option FractalAnalysis) (st : ServerState) : IncResult × ServerState :=
  if previous.isSome && !hasNodeChanged st node then
    match previous with
    | some p =>
      (⟨p.maxDepth, p.unresolvedCount, p.totalCount, p.needsAttention⟩, st)
    | none => (⟨0, 0, 0, false⟩, st)  -- unreachable under `previous.isSome`
  else
    match node with
    | .node _ _ depth _ subs complete _ _ =>
      analyzeSubThoughts now subs
        ⟨depth, if complete then 0 else 1, 1, false⟩ st
def analyzeSubThoughts (now : Nat) : List FThought → IncResult → ServerState →
    IncResult × ServerState
  | [], acc, st => (acc, st)
  | sub :: rest, acc, st =>
    let (cached, st1) := getCachedAnalysis now sub.thoughtId st
    let (subAnalysis, st2) := analyzeNodeIncremental now sub cached st1
    let acc1 : IncResult :=
      { maxDepth := Nat.max acc.maxDepth subAnalysis.maxDepth
      , unresolvedCount := acc.unresolvedCount + subAnalysis.unresolvedCount
      , totalCount := acc.totalCount + subAnalysis.totalCount
      , hasUnresolvedWithDeeperAnalysis :=
          acc.hasUnresolvedWithDeeperAnalysis || subAnalysis.hasUnresolvedWithDeeperAnalysis }
    analyzeSubThoughts now rest acc1 st2
end

/-- The fixed default `FractalAnalysis` returned by `analyzeDepth` for an
unknown thought id. -/
def thoughtNotFoundAnalysis : FractalAnalysis :=
  { maxDepth := 0
  , unresolvedCount := 0
  , totalCount := 0
  , completionRatio := 0
  , status := .incomplete
  , needsAttention := false
  , fractalMetrics :=
    { branchingFactor := 0
    , depthConsistency := 0
    , crossBranchSimilarity := 0
    , patternStrength := .fin 0
    , recursivePatterns := []
    , emergentProperties := [] }
  , summary :=
    { complexSystems := "Thought not found"
    , patternIdentification := ""
    , forecasting := ""
    , innovation := "" } }

/-- The body of `analyzeDepth` after the initial cache check: look the
thought up, recount incrementally, rebuild every metric, mark analyzed,
cache, and return the freshly cached entry.  The final
`getCachedAnalysis(thoughtId)!` non-null assertion is modelled by `Option`
(`none` would be a crash). -/
def analyzeDepthCompute (now : Nat) (st : ServerState) (thoughtId : String)
    (cached : Option FractalAnalysis) : Option (FractalAnalysis × ServerState) :=
  match st.findThought thoughtId with
  | none => some (thoughtNotFoundAnalysis, st)
  | some thought =>
    let (inc, st1) := analyzeNodeIncremental now thought cached st
    let completionRatio := JSNum.div
      (JSNum.ofInt ((inc.totalCount : Int) - (inc.unresolvedCount : Int)))
      (JSNum.ofNat inc.totalCount)
    let status : FStatus :=
      if JSNum.eq completionRatio 1 then .complete
      else if JSNum.le ⟨7, 10⟩ completionRatio then .partiallyComplete
      else .incomplete
    let branchingFactor := calculateBranchingFactor thought
    let depthConsistency := calculateDepthConsistency thought
    let crossBranchSimilarity := JSNum.mul depthConsistency completionRatio
    let recursivePatterns := identifyRecursivePatterns thought
    let emergentProperties := identifyEmergentProperties thought recursivePatterns
    let patternStrength := calculatePatternStrength thought recursivePatterns emergentProperties
    let st2 := markAnalyzed now thoughtId st1
    let analysis : FractalAnalysis :=
      { maxDepth := inc.maxDepth
      , unresolvedCount := inc.unresolvedCount
      , totalCount := inc.totalCount
      , completionRatio := completionRatio
      , status := status
      , needsAttention := inc.hasUnresolvedWithDeeperAnalysis
      , fractalMetrics :=
        { branchingFactor := branchingFactor
        , depthConsistency := depthConsistency
        , crossBranchSimilarity := crossBranchSimilarity
        , patternStrength := patternStrength
        , recursivePatterns := recursivePatterns
        , emergentProperties := emergentProperties }
      , summary := generateFractalSummary thought }
    let st3 := cacheAnalysis now thoughtId analysis st2
    let (result, st4) := getCachedAnalysis now thoughtId st3
    match result with
    | some r => some (r, st4)
    | none => none

/-- `analyzeDepth(thoughtId)`.  The early return happens when the cache
lookup hits **and** `hasNodeChanged` is false; the non-null assertion
`this.findThought(thoughtId)!` inside that guard crashes when a cached id
no longer resolves (modelled as `none`, unreachable from reachable
states). -/
def analyzeDepth (now : Nat) (st : ServerState) (thoughtId : String) :
    Option (FractalAnalysis × ServerState) :=
  let (cached, st1) := getCachedAnalysis now thoughtId st
  match cached with
  | some c =>
    match st1.findThought thoughtId with
    | none => none
    | some node =>
      if !hasNodeChanged st1 node then some (c, st1)
      else analyzeDepthCompute now st1 thoughtId cached
  | none => analyzeDepthCompute now st1 thoughtId cached

/-! ## Pure counting functions (the fresh path of `analyzeNodeIncremental`) -/

mutual
/-- The total node count of a subtree (what the fresh recursion of
`analyzeNodeIncremental` accumulates into `totalCount`). -/
def cntTotal : FThought → Nat
  | .node _ _ _ _ subs _ _ _ => 1 + cntTotalList subs
def cntTotalList : List FThought → Nat
  | [] => 0
  | c :: cs => cntTotal c + cntTotalList cs
end

mutual
/-- The number of nodes with `isComplete = false` in a subtree
(`unresolvedCount` of the fresh recursion). -/
def cntUnresolved : FThought → Nat
  | .node _ _ _ _ subs complete _ _ =>
    (if complete then 0 else 1) + cntUnresolvedList subs
def cntUnresolvedList : List FThought → Nat
  | [] => 0
  | c :: cs => cntUnresolved c + cntUnresolvedList cs
end

/-- A server state with empty caches and tracker (a fresh analysis
context); the tree content is irrelevant to `analyzeNodeIncremental`. -/
def blankAnalysisState : ServerState :=
  ⟨[], defaultCacheConfig, ⟨0, 0, 0, 0⟩, [], [], []⟩

/-- The metrics a fresh (fully uncached) run of `analyzeNodeIncremental`
computes for a subtree. -/
def freshCounts (t : FThought) : IncResult :=
  (analyzeNodeIncremental 0 t none blankAnalysisState).1

/-- The `completionRatio` value `analyzeDepth` builds from incremental
counts (`(totalCount - unresolvedCount) / totalCount`). -/
def completionRatioOfCounts (r : IncResult) : JSNum :=
  JSNum.div (JSNum.ofInt ((r.totalCount : Int) - (r.unresolvedCount : Int)))
    (JSNum.ofNat r.totalCount)

/-- `FlipOne t t'` relates two trees that are identical except that one
single node's `isComplete` flag was flipped from `false` to `true`
(everything else unchanged) — the transition of the spec's monotonicity
property. -/
inductive FlipOne : FThought → FThought → Prop
  | here (th tid : String) (d : Nat) (pid : Option String) (subs : List FThought)
      (needs : Bool) (created : String) :
      FlipOne (.node th tid d pid subs false needs created)
        (.node th tid d pid subs true needs created)
  | child (th tid : String) (d : Nat) (pid : Option String)
      (pre post : List FThought) (c c2 : FThought) (complete needs : Bool)
      (created : String) :
      FlipOne c c2 →
      FlipOne (.node th tid d pid (pre ++ c :: post) complete needs created)
        (.node th tid d pid (pre ++ c2 :: post) complete needs created)

/-! ## Derived notions used to state the claims -/

/-- The id the parent-propagation step of `trackThoughtChange` targets:
the `parentId` of the node `findThought` resolves, when that id is truthy. -/
def trackedParentId (st : ServerState) (id : String) : Option String :=
  match st.findThought id with
  | some t =>
    match t.parentId with
    | some p => if p = "" then none else some p
    | none => none
  | none => none

/-- "Contains no `'|'` character" — the separator-freedom condition under
which the pipe-delimited encoding splits back into its five fields. -/
def noPipe (l : List Char) : Prop := ∀ c ∈ l, c ≠ '|'

/-! ## Concrete states used by witnesses and counterexamples -/

/-- Leaf with `isComplete = false` and `needsDeeperAnalysis = false`: no
pattern predicate matches it, so its detected pattern list is empty. -/
def exLeafIncomplete : FThought := .node "x" "x" 0 none [] false false ""

def exNodeB : FThought := .node "B" "B" 2 (some "A") [] true false ""

def exNodeC : FThought := .node "C" "C" 2 (some "A") [] false false ""

def exNodeA : FThought := .node "A" "A" 1 (some "root") [exNodeB, exNodeC] false false ""

/-- The constructor-default root node with the scenario subtree
`root -> A(incomplete) -> [B(complete leaf), C(incomplete leaf)]`. -/
def exRoot : FThought := .node "Root thought" "root" 0 none [exNodeA] false false ""

/-- A fresh server over `exRoot` (empty caches and tracker). -/
def exState : ServerState := ⟨[exRoot], defaultCacheConfig, ⟨0, 0, 0, 0⟩, [], [], []⟩

/-- A server over `exRoot` whose `root` record is present and clean, with
one tracked change already recorded (`lastModified 3 ≤ lastAnalysis 5`,
`subtreeChanged` clear). -/
def exStateTracked : ServerState :=
  ⟨[exRoot], defaultCacheConfig, ⟨0, 0, 0, 0⟩, [], [], [("root", ⟨3, false, 5⟩)]⟩

def exGrandchild : FThought := .node "b" "b" 2 (some "a") [] false false ""

def exChildA : FThought := .node "a" "a" 1 (some "root") [exGrandchild] false false ""

/-- A two-level chain `root -> a -> b` ("b" is a grandchild of the root). -/
def exChainRoot : FThought := .node "Root thought" "root" 0 none [exChildA] false false ""

/-- The chain tree with a clean tracker record for `root`. -/
def exChainState : ServerState :=
  ⟨[exChainRoot], defaultCacheConfig, ⟨0, 0, 0, 0⟩, [], [], [("root", ⟨0, false, 0⟩)]⟩

/-- `exChainState` after a successful `analyzeDepth('root')` at time 1:
the root's analysis is cached and its tracker is clean. -/
def exChainAnalyzed : ServerState :=
  match analyzeDepth 1 exChainState "root" with
  | some r => r.2
  | none => exChainState

/-- `exChainAnalyzed` after `trackThoughtChange('b', true)` at time 2: a
recorded change on the grandchild `b` of the cached node `root`. -/
def exChainChanged : ServerState := trackThoughtChange 2 "b" true exChainAnalyzed

/-- A minimal `FractalAnalysis` value used to populate cache entries in
witness states. -/
def exAnalysisValue : FractalAnalysis :=
  { maxDepth := 2
  , unresolvedCount := 1
  , totalCount := 2
  , completionRatio := ⟨1, 2⟩
  , status := .incomplete
  , needsAttention := false
  , fractalMetrics :=
    { branchingFactor := 0
    , depthConsistency := 1
    , crossBranchSimilarity := 0
    , patternStrength := .fin ⟨2, 5⟩
    , recursivePatterns :=
        [{ type := "expansion", occurrences := 3, scales := [0]
         , evolution := [], crossBranchOccurrences := 0, confidence := 0 }]
    , emergentProperties :=
        [{ property := "Systematic Exploration", strength := ⟨7, 10⟩, relatedPatterns := [] }] }
  , summary := ⟨"", "", "", ""⟩ }

/-- A cache entry holding `exAnalysisValue`, written at time 0. -/
def exCacheEntry : CachedAnalysis :=
  { timestamp := 0, summary := summarizeAnalysis exAnalysisValue, key := "root"
  , fullAnalysis := exAnalysisValue, accessCount := 0 }

/-- A state over the scenario tree with a fresh, clean cache entry for
`root` (used by the cache-hit witness). -/
def exStateCached : ServerState :=
  ⟨[exRoot], defaultCacheConfig, ⟨0, 0, 0, 0⟩,
    [("root", exCacheEntry)], [], [("root", ⟨0, false, 0⟩)]⟩

/-- A tiny over-capacity cache state: `maxCacheSize = 1` with two resident
analysis entries (used by the capacity witness). -/
def exStateOverCap : ServerState :=
  ⟨[exRoot], { defaultCacheConfig with maxCacheSize := 1 }, ⟨0, 0, 0, 0⟩,
    [("x", { exCacheEntry with key := "x", timestamp := 7 }),
     ("y", { exCacheEntry with key := "y", timestamp := 4 })], [], []⟩

/-- The survival predicate of `evictLeastUsedEntries`: a flattened
`(key, lastAccess, isAnalysis)` entry survives the eviction of the batch
`tE` exactly when no batch member targets its cache (same tag) and key. -/
def evictKeep (tE : List (String × Nat × Bool)) (x : String × Nat × Bool) : Bool :=
  !(tE.any (fun e => (e.2.2 == x.2.2) && decide (e.1 = x.1)))

/-- The characters of the `D…` segment of `summarizeAnalysis`. -/
def segDepthChars (r : FractalAnalysis) : List Char :=
  'D' :: natRender (jsOrZeroNat r.maxDepth)

/-- The characters of the `C…%` segment of `summarizeAnalysis`. -/
def segCompletionChars (r : FractalAnalysis) : List Char :=
  'C' :: (intRender (JSNum.toFixed0 (JSNum.mul (jsOrZeroNum r.completionRatio) ⟨100, 1⟩)) ++ ['%'])

/-- The characters of the `P[…]` segment of `summarizeAnalysis`. -/
def segPatternsChars (r : FractalAnalysis) : List Char :=
  'P' :: ('[' :: ((joinStrings ", " ((r.fractalMetrics.recursivePatterns.take 2).map (fun p =>
    p.type ++ "(" ++ natStr p.occurrences ++ ")"))).data ++ [']']))

/-- The characters of the `E[…]` segment of `summarizeAnalysis`. -/
def segPropsChars (r : FractalAnalysis) : List Char :=
  'E' :: ('[' :: ((joinStrings ", " ((r.fractalMetrics.emergentProperties.take 2).map (fun p =>
    p.property ++ "(" ++ pctStr p.strength ++ "%)"))).data ++ [']']))

/-- The characters of the `S…%` segment of `summarizeAnalysis`. -/
def segStrengthChars (r : FractalAnalysis) : List Char :=
  'S' :: ((pctStrJVal (jsOrZeroJVal r.fractalMetrics.patternStrength)).data ++ ['%'])


/-! # Lemmas and claim theorems -/

/-! ## Association-list lemmas -/

theorem mapGet_mapSet_self (l : List (String × α)) (k : String) (v : α) :
    mapGet (mapSet l k v) k = some v := by
  induction l with
  | nil => simp [mapSet, mapGet]
  | cons kv rest ih =>
    by_cases h : kv.1 = k
    · simp [mapSet, h, mapGet]
    · simp only [mapSet, if_neg h]
      simpa [mapGet, List.find?, h] using ih

theorem mapGet_mapSet_ne (l : List (String × α)) (k k2 : String) (v : α)
    (h : k2 ≠ k) : mapGet (mapSet l k v) k2 = mapGet l k2 := by
  have hne : (decide (k = k2)) = false := by
    simp
    exact fun hh => h hh.symm
  induction l with
  | nil => simp [mapSet, mapGet, List.find?, hne]
  | cons kv rest ih =>
    by_cases hk : kv.1 = k
    · subst hk
      simp [mapSet, mapGet, List.find?, hne]
    · simp only [mapSet, if_neg hk]
      simp only [mapGet, List.find?] at ih ⊢
      cases hd : (decide (kv.1 = k2)) <;> simp [hd, ih]

theorem length_mapSet_le (l : List (String × α)) (k : String) (v : α) :
    (mapSet l k v).length ≤ l.length + 1 := by
  induction l with
  | nil => simp [mapSet]
  | cons kv rest ih =>
    by_cases h : kv.1 = k
    · simp [mapSet, h]
    · simp [mapSet, h]
      omega

/-! ## State-shape lemmas -/

/-- `trackThoughtChange` only rewrites the change tracker. -/
theorem trackThoughtChange_shape (now : Nat) (id : String) (flag : Bool)
    (st : ServerState) :
    ∃ ct, trackThoughtChange now id flag st = { st with changeTracker := ct } := by
  unfold trackThoughtChange
  dsimp only
  split
  case _ thought heq =>
    split
    case _ pid heq2 =>
      by_cases hpe : pid = "" <;> simp [hpe]
    case _ => exact ⟨_, rfl⟩
  case _ => exact ⟨_, rfl⟩

/-- `markAnalyzed` only rewrites the change tracker. -/
theorem markAnalyzed_shape (now : Nat) (id : String) (st : ServerState) :
    ∃ ct, markAnalyzed now id st = { st with changeTracker := ct } := by
  unfold markAnalyzed
  split
  case _ => exact ⟨_, rfl⟩
  case _ => exact ⟨st.changeTracker, rfl⟩

/-- The state returned by `getCachedAnalysis` only rewrites the analysis
cache and the statistics. -/
theorem getCachedAnalysis_shape (now : Nat) (id : String) (st : ServerState) :
    ∃ ac stats, (getCachedAnalysis now id st).2 =
      { st with analysisCache := ac, cacheStats := stats } := by
  unfold getCachedAnalysis
  split
  case _ => exact ⟨_, _, rfl⟩
  case _ cached heq =>
    dsimp only
    split
    case _ => exact ⟨_, _, rfl⟩
    case _ => exact ⟨_, _, rfl⟩

theorem findThought_eq_of_tree_eq (st st2 : ServerState)
    (h : st.thoughtTree = st2.thoughtTree) (id : String) :
    st.findThought id = st2.findThought id := by
  unfold ServerState.findThought
  rw [h]

/-- `hasNodeChanged` only reads the change tracker. -/
theorem hasNodeChanged_eq_of_tracker_eq {st st2 : ServerState}
    (h : st.changeTracker = st2.changeTracker) (n : FThought) :
    hasNodeChanged st n = hasNodeChanged st2 n := by
  unfold hasNodeChanged
  rw [h]

/-! ## Claim C9: the concrete scenario analysis -/

/-- C9: for the tree `root -> A(isComplete=false) -> [B(complete leaf),
C(incomplete leaf)]`, a fresh `analyzeDepth("A")` yields `totalCount = 3`,
`unresolvedCount = 2`, `completionRatio = 1/3` and status `incomplete`. -/
theorem claim_c9_scenario_counts :
    ((analyzeDepth 0 exState "A").map (fun r =>
      (r.1.totalCount, r.1.unresolvedCount, r.1.status))) = some (3, 2, .incomplete) ∧
    ((analyzeDepth 0 exState "A").map (fun r => r.1.completionRatio.toRat)) = some (1 / 3) := by
  refine ⟨by decide, ?_⟩
  have h : ((analyzeDepth 0 exState "A").map (fun r => r.1.completionRatio)) =
      some ⟨1, 3⟩ := by decide
  rcases hA : analyzeDepth 0 exState "A" with _ | ⟨a, st2⟩
  · rw [hA] at h
    simp at h
  · rw [hA] at h
    simp only [Option.map_some'] at h ⊢
    have hv := Option.some.inj h
    rw [hv]
    norm_num [JSNum.toRat]

/-! ## Claim C3: empty pattern list makes the strength `-Infinity` -/

/-- C3 (evidence of the code bug): for an incomplete leaf with
`needsDeeperAnalysis = false`, the detected recursive-pattern list is
empty and `calculatePatternStrength` evaluates to `-Infinity` — the
`Math.max(...[])` term is `-Infinity` and propagates through the weighted
sum — instead of the finite sentinel-0-based value required by the spec
(and by the code's own `(0-1)` range comments). -/
theorem claim_c3_empty_patterns_negInf :
    identifyRecursivePatterns exLeafIncomplete = [] ∧
    calculatePatternStrength exLeafIncomplete (identifyRecursivePatterns exLeafIncomplete)
      (identifyEmergentProperties exLeafIncomplete (identifyRecursivePatterns exLeafIncomplete)) =
      .negInf := by
  decide

/-! ## Claim C6: decoding the documented example string -/

/-- C6 (counterexample): decoding the spec's exact string yields an
emergent-property strength of `0.07`, not `≈ 0.70`: the encoder writes a
`%` before the closing parenthesis, and `slice(0, -2)` assumes it, so for
the input `...(70)]...` the final `0` is stripped along with `)`. -/
theorem claim_c6_counterexample :
    ((expandSummary "D2|C50%|P[expansion(3)]|E[Systematic Exploration(70)]|S40%").fractalMetrics.emergentProperties.map
      (fun p => p.strength)) = [some ⟨7, 100⟩] ∧
    JSNum.toRat ⟨7, 100⟩ = 7 / 100 ∧
    ¬ |(7 : ℚ) / 100 - 70 / 100| ≤ 1 / 100 := by
  refine ⟨by decide, by norm_num [JSNum.toRat], by norm_num [abs_le]⟩

/-- C6 (amended): decoding
`"D2|C50%|P[expansion(3)]|E[Systematic Exploration(70)]|S40%"` yields
`maxDepth = 2`, `completionRatio = 0.5`, `patternStrength = 0.4`, one
pattern record `expansion` with `occurrences = 3` and empty scales, and
one emergent property named `Systematic Exploration` whose strength is
`0.07` (not `0.70`: the encoded form carries a `%` before `)`, and its
absence makes the two-character strip eat a digit). -/
theorem claim_c6_amended :
    (expandSummary "D2|C50%|P[expansion(3)]|E[Systematic Exploration(70)]|S40%").maxDepth = some 2 ∧
    (expandSummary "D2|C50%|P[expansion(3)]|E[Systematic Exploration(70)]|S40%").completionRatio = some ⟨50, 100⟩ ∧
    JSNum.toRat ⟨50, 100⟩ = 1 / 2 ∧
    (expandSummary "D2|C50%|P[expansion(3)]|E[Systematic Exploration(70)]|S40%").fractalMetrics.patternStrength = some ⟨40, 100⟩ ∧
    JSNum.toRat ⟨40, 100⟩ = 2 / 5 ∧
    (expandSummary "D2|C50%|P[expansion(3)]|E[Systematic Exploration(70)]|S40%").fractalMetrics.recursivePatterns =
      [{ type := "expansion", occurrences := some 3, scales := [], evolution := []
       , crossBranchOccurrences := 0, confidence := 0 }] ∧
    (expandSummary "D2|C50%|P[expansion(3)]|E[Systematic Exploration(70)]|S40%").fractalMetrics.emergentProperties =
      [{ property := "Systematic Exploration", strength := some ⟨7, 100⟩, relatedPatterns := [] }] ∧
    JSNum.toRat ⟨7, 100⟩ = 7 / 100 := by
  refine ⟨by decide, by decide, by norm_num [JSNum.toRat], by decide, by norm_num [JSNum.toRat],
    by decide, by decide, by norm_num [JSNum.toRat]⟩

/-! ## Claim C10: unknown ids return the fixed default -/

/-- C10: for a thought id with no cache entry (an invariant of reachable
states: entries are only ever written for ids found in the tree, and nodes
are never removed) that does not resolve to a node, `analyzeDepth` returns
— without crashing — the fixed all-zero default whose `complexSystems`
summary is `"Thought not found"`, and counts one miss. -/
theorem claim_c10_unknown_id (now : Nat) (st : ServerState) (id : String)
    (hc : mapGet st.analysisCache id = none)
    (hf : st.findThought id = none) :
    analyzeDepth now st id =
      some (thoughtNotFoundAnalysis,
        { st with cacheStats := { st.cacheStats with misses := st.cacheStats.misses + 1 } }) := by
  have hstep : getCachedAnalysis now id st =
      (none, { st with cacheStats := { st.cacheStats with misses := st.cacheStats.misses + 1 } }) := by
    unfold getCachedAnalysis
    rw [hc]
  have hf2 : ({ st with cacheStats := { st.cacheStats with misses := st.cacheStats.misses + 1 } } : ServerState).findThought id = none := by
    have he : ({ st with cacheStats := { st.cacheStats with misses := st.cacheStats.misses + 1 } } : ServerState).findThought id = st.findThought id := rfl
    rw [he, hf]
  unfold analyzeDepth
  rw [hstep]
  dsimp only
  unfold analyzeDepthCompute
  rw [hf2]

/-- Witness for C10 at a concrete unknown id over the scenario state. -/
theorem claim_c10_unknown_id_witness :
    mapGet exState.analysisCache "zzz" = none ∧
    exState.findThought "zzz" = none ∧
    analyzeDepth 0 exState "zzz" =
      some (thoughtNotFoundAnalysis,
        { exState with cacheStats := { exState.cacheStats with misses := exState.cacheStats.misses + 1 } }) :=
  ⟨rfl, rfl, claim_c10_unknown_id 0 exState "zzz" rfl rfl⟩

/-! ## Claim C4: what `trackThoughtChange` does and does not touch -/

/-- A tracker record with `subtreeChanged` set makes the node dirty. -/
theorem hasNodeChanged_of_subtree (st : ServerState) (n : FThought)
    (tr : ThoughtChangeTracker) (h : mapGet st.changeTracker n.thoughtId = some tr)
    (hs : tr.subthoughtChanges = true) : hasNodeChanged st n = true := by
  unfold hasNodeChanged
  rw [h]
  by_cases h1 : tr.lastAnalysis < tr.lastModified <;> simp [h1, hs]

/-- A tracker record modified after its last analysis makes the node dirty. -/
theorem hasNodeChanged_of_modified (st : ServerState) (n : FThought)
    (tr : ThoughtChangeTracker) (h : mapGet st.changeTracker n.thoughtId = some tr)
    (hm : tr.lastAnalysis < tr.lastModified) : hasNodeChanged st n = true := by
  unfold hasNodeChanged
  rw [h]
  simp [hm]

/-- C4 (counterexample): `recordChange` with `subtreeAffected = false` on a
node with a parent still sets `subtreeChanged = true` on the parent's
record — the propagation is unconditional, refuting "propagated to the
immediate parent's record if and only if subtreeAffected is true". -/
theorem claim_c4_counterexample :
    mapGet (trackThoughtChange 10 "A" false exStateTracked).changeTracker "root" =
      some ⟨3, true, 5⟩ ∧
    mapGet exStateTracked.changeTracker "root" = some ⟨3, false, 5⟩ := by
  constructor
  · rfl
  · rfl

/-- C4 (amended): `trackThoughtChange(nodeId, subtreeAffected)` sets the
node's `lastModified` to now and sets its `subtreeChanged` only when
`subtreeAffected` (otherwise leaving it as it was); whenever the node
exists and has a (truthy, distinct) parent it **unconditionally** sets
`subtreeChanged = true` on the immediate parent's record (creating it if
absent, with `lastModified = now`); and no other node's record changes. -/
theorem claim_c4_amended (now : Nat) (id : String) (flag : Bool) (st : ServerState)
    (hne : trackedParentId st id ≠ some id) :
    (mapGet (trackThoughtChange now id flag st).changeTracker id = some
      { lastModified := now
      , subthoughtChanges := if flag then true else
          (((mapGet st.changeTracker id).map (fun tr => tr.subthoughtChanges)).getD false)
      , lastAnalysis := ((mapGet st.changeTracker id).map (fun tr => tr.lastAnalysis)).getD 0 }) ∧
    (∀ pid, trackedParentId st id = some pid →
      mapGet (trackThoughtChange now id flag st).changeTracker pid = some
        (match mapGet st.changeTracker pid with
         | some p => { p with subthoughtChanges := true }
         | none => { lastModified := now, subthoughtChanges := true, lastAnalysis := 0 })) ∧
    (∀ k, k ≠ id → trackedParentId st id ≠ some k →
      mapGet (trackThoughtChange now id flag st).changeTracker k = mapGet st.changeTracker k) := by
  have hcur : ((mapGet st.changeTracker id).getD
      { lastModified := now, subthoughtChanges := false, lastAnalysis := 0 }).lastAnalysis =
      ((mapGet st.changeTracker id).map (fun tr => tr.lastAnalysis)).getD 0 := by
    cases mapGet st.changeTracker id <;> rfl
  have hsub : ∀ b : Bool, (if b then true else
      ((mapGet st.changeTracker id).getD
        { lastModified := now, subthoughtChanges := false, lastAnalysis := 0 }).subthoughtChanges) =
      (if b then true else
        (((mapGet st.changeTracker id).map (fun tr => tr.subthoughtChanges)).getD false)) := by
    intro b
    cases mapGet st.changeTracker id <;> cases b <;> rfl
  unfold trackThoughtChange
  dsimp only
  rw [show ({ st with changeTracker := mapSet st.changeTracker id _ } : ServerState).findThought id
      = st.findThought id from rfl]
  cases hft : st.findThought id with
  | none =>
    dsimp only
    have htp : trackedParentId st id = none := by
      unfold trackedParentId
      rw [hft]
    refine ⟨?_, ?_, ?_⟩
    · rw [mapGet_mapSet_self]
      simp [hcur, hsub]
    · intro pid hpid
      rw [htp] at hpid
      exact absurd hpid (by simp)
    · intro k hk _
      exact mapGet_mapSet_ne _ _ _ _ hk
  | some thought =>
    dsimp only
    cases hp : thought.parentId with
    | none =>
      dsimp only
      have htp : trackedParentId st id = none := by
        unfold trackedParentId
        rw [hft]
        dsimp only
        rw [hp]
      refine ⟨?_, ?_, ?_⟩
      · rw [mapGet_mapSet_self]
        simp [hcur, hsub]
      · intro pid hpid
        rw [htp] at hpid
        exact absurd hpid (by simp)
      · intro k hk _
        exact mapGet_mapSet_ne _ _ _ _ hk
    | some pid =>
      dsimp only
      by_cases hpe : pid = ""
      · rw [if_pos hpe]
        have htp : trackedParentId st id = none := by
          unfold trackedParentId
          rw [hft]
          dsimp only
          rw [hp]
          dsimp only
          rw [if_pos hpe]
        refine ⟨?_, ?_, ?_⟩
        · rw [mapGet_mapSet_self]
          simp [hcur, hsub]
        · intro pid2 hpid2
          rw [htp] at hpid2
          exact absurd hpid2 (by simp)
        · intro k hk _
          exact mapGet_mapSet_ne _ _ _ _ hk
      · rw [if_neg hpe]
        have htp : trackedParentId st id = some pid := by
          unfold trackedParentId
          rw [hft]
          dsimp only
          rw [hp]
          dsimp only
          rw [if_neg hpe]
        have hpid_ne : pid ≠ id := by
          intro h
          exact hne (by rw [htp, h])
        dsimp only
        rw [show ∀ v : ThoughtChangeTracker,
            mapGet (mapSet st.changeTracker id v) pid = mapGet st.changeTracker pid
          from fun v => mapGet_mapSet_ne _ _ _ _ hpid_ne]
        refine ⟨?_, ?_, ?_⟩
        · rw [mapGet_mapSet_ne _ _ _ _ (fun h => hpid_ne h.symm), mapGet_mapSet_self]
          simp [hcur, hsub]
        · intro pid2 hpid2
          rw [htp] at hpid2
          have hpp : pid2 = pid := (Option.some.inj hpid2).symm
          subst hpp
          rw [mapGet_mapSet_self]
          cases mapGet st.changeTracker pid2 <;> rfl
        · intro k hk hk2
          rw [htp] at hk2
          have hkp : pid ≠ k := fun h => hk2 (by rw [h])
          rw [mapGet_mapSet_ne _ _ _ _ (fun h => hkp h.symm),
            mapGet_mapSet_ne _ _ _ _ hk]

/-- Witness for C4's amended claim: the frame part at an untouched key. -/
theorem claim_c4_amended_witness :
    mapGet (trackThoughtChange 10 "A" false exStateTracked).changeTracker "zzz" =
      mapGet exStateTracked.changeTracker "zzz" :=
  (claim_c4_amended 10 "A" false exStateTracked (by decide)).2.2 "zzz" (by decide) (by decide)

/-! ## Claim C1: descendant changes and cache invalidation -/

/-- C1 (counterexample): over the chain `root -> a -> b`, after a
successful cached analysis of `root`, recording a change on the
*grandchild* `b` (`trackThoughtChange("b", true)`) does **not** make the
next `analyzeDepth("root")` miss: the call returns the cached snapshot
unchanged, counts no miss, and never re-marks `root` as analyzed —
the dirty flag only climbed one level (to `a`), never reaching `root`. -/
theorem claim_c1_counterexample :
    mapGet exChainChanged.changeTracker "b" = some ⟨2, true, 0⟩ ∧
    (mapGet exChainChanged.changeTracker "a").map (fun tr => tr.subthoughtChanges) = some true ∧
    (exChainRoot.subThoughts.map (fun c => c.thoughtId)) = ["a"] ∧
    ((exChainRoot.subThoughts.head?).map (fun c => c.subThoughts.map (fun g => g.thoughtId))) =
      some ["b"] ∧
    (mapGet exChainChanged.analysisCache "root").isSome = true ∧
    ((analyzeDepth 3 exChainChanged "root").map (fun r => r.1)) =
      ((mapGet exChainChanged.analysisCache "root").map (fun e => e.fullAnalysis)) ∧
    ((analyzeDepth 3 exChainChanged "root").map (fun r => r.2.cacheStats.misses)) =
      some exChainChanged.cacheStats.misses ∧
    ((analyzeDepth 3 exChainChanged "root").map (fun r =>
      (mapGet r.2.changeTracker "root").map (fun tr => tr.lastAnalysis))) = some (some 1) := by
  decide

/-- A change recorded on a node itself (later than its last analysis)
leaves its tracker record dirty. -/
theorem trackThoughtChange_self_dirty (now : Nat) (cid : String) (flag : Bool)
    (st : ServerState)
    (hlt : ((mapGet st.changeTracker cid).map (fun tr => tr.lastAnalysis)).getD 0 < now) :
    ∃ tr, mapGet (trackThoughtChange now cid flag st).changeTracker cid = some tr ∧
      (tr.lastAnalysis < tr.lastModified ∨ tr.subthoughtChanges = true) := by
  have hcur : ((mapGet st.changeTracker cid).getD
      { lastModified := now, subthoughtChanges := false, lastAnalysis := 0 }).lastAnalysis =
      ((mapGet st.changeTracker cid).map (fun tr => tr.lastAnalysis)).getD 0 := by
    cases mapGet st.changeTracker cid <;> rfl
  unfold trackThoughtChange
  dsimp only
  rw [show ({ st with changeTracker := mapSet st.changeTracker cid _ } : ServerState).findThought cid
      = st.findThought cid from rfl]
  cases hft : st.findThought cid with
  | none =>
    dsimp only
    refine ⟨_, mapGet_mapSet_self _ _ _, Or.inl ?_⟩
    dsimp only
    rw [hcur]
    exact hlt
  | some thought =>
    dsimp only
    cases hp : thought.parentId with
    | none =>
      dsimp only
      refine ⟨_, mapGet_mapSet_self _ _ _, Or.inl ?_⟩
      dsimp only
      rw [hcur]
      exact hlt
    | some pid =>
      dsimp only
      by_cases hpe : pid = ""
      · rw [if_pos hpe]
        refine ⟨_, mapGet_mapSet_self _ _ _, Or.inl ?_⟩
        dsimp only
        rw [hcur]
        exact hlt
      · rw [if_neg hpe]
        dsimp only
        by_cases hpc : pid = cid
        · subst hpc
          refine ⟨_, mapGet_mapSet_self _ _ _, Or.inr ?_⟩
          rfl
        · refine ⟨?w, ?h1, ?h2⟩
          case h1 =>
            rw [mapGet_mapSet_ne _ _ _ _ (fun h => hpc h.symm)]
            exact mapGet_mapSet_self _ _ _
          case h2 =>
            refine Or.inl ?_
            dsimp only
            rw [hcur]
            exact hlt

/-- A change recorded on an immediate child sets the parent's
`subtreeChanged` flag. -/
theorem trackThoughtChange_child_dirty (now : Nat) (cid : String) (flag : Bool)
    (st : ServerState) (id : String) (c : FThought)
    (hc : st.findThought cid = some c) (hp : c.parentId = some id)
    (hids : id ≠ "") :
    ∃ tr, mapGet (trackThoughtChange now cid flag st).changeTracker id = some tr ∧
      tr.subthoughtChanges = true := by
  unfold trackThoughtChange
  dsimp only
  rw [show ({ st with changeTracker := mapSet st.changeTracker cid _ } : ServerState).findThought cid
      = st.findThought cid from rfl, hc]
  dsimp only
  rw [hp]
  dsimp only
  rw [if_neg hids]
  dsimp only
  exact ⟨_, mapGet_mapSet_self _ _ _, rfl⟩

/-- When the looked-up node is dirty, `analyzeDepth` takes the recompute
path: it is the `analyzeDepthCompute` continuation of the initial cache
probe, never the early cached return. -/
theorem analyzeDepth_recompute_of_dirty (now : Nat) (st : ServerState) (id : String)
    (n : FThought) (hfind : st.findThought id = some n)
    (hchanged : hasNodeChanged st n = true) :
    analyzeDepth now st id =
      analyzeDepthCompute now (getCachedAnalysis now id st).2 id
        (getCachedAnalysis now id st).1 := by
  unfold analyzeDepth
  rcases hga : getCachedAnalysis now id st with ⟨cached, st3⟩
  dsimp only
  cases cached with
  | none => rfl
  | some cval =>
    obtain ⟨ac, stats, hshape⟩ := getCachedAnalysis_shape now id st
    rw [hga] at hshape
    dsimp only at hshape
    have htree : st3.thoughtTree = st.thoughtTree := by rw [hshape]
    have htracker : st3.changeTracker = st.changeTracker := by rw [hshape]
    rw [findThought_eq_of_tree_eq st3 st htree, hfind]
    dsimp only
    rw [hasNodeChanged_eq_of_tracker_eq htracker, hchanged]
    simp

/-- C1 (amended): a recorded change on the node **itself** (with a
timestamp later than its last analysis) or on one of its **immediate
children** does force the next `analyzeDepth` lookup onto the recompute
path: the node is dirty afterwards, and `analyzeDepth` reduces to
`analyzeDepthCompute` instead of returning the cached snapshot.
(Changes at distance two or more do not reach the node's record — see the
counterexample.) -/
theorem claim_c1_amended (now1 now2 : Nat) (st : ServerState) (id cid : String)
    (flag : Bool) (n : FThought)
    (hfind : st.findThought id = some n) (hid : n.thoughtId = id)
    (hcase :
      (cid = id ∧ ((mapGet st.changeTracker id).map (fun tr => tr.lastAnalysis)).getD 0 < now1) ∨
      (∃ c, st.findThought cid = some c ∧ c.parentId = some id ∧ id ≠ "")) :
    hasNodeChanged (trackThoughtChange now1 cid flag st) n = true ∧
    analyzeDepth now2 (trackThoughtChange now1 cid flag st) id =
      analyzeDepthCompute now2 (getCachedAnalysis now2 id (trackThoughtChange now1 cid flag st)).2
        id (getCachedAnalysis now2 id (trackThoughtChange now1 cid flag st)).1 := by
  have hdirty : hasNodeChanged (trackThoughtChange now1 cid flag st) n = true := by
    rcases hcase with ⟨heq, hlt⟩ | ⟨c, hc, hp, hids⟩
    · subst heq
      obtain ⟨tr, htr, hd⟩ := trackThoughtChange_self_dirty now1 cid flag st hlt
    -- both disjuncts of the dirtiness make `hasNodeChanged` true
      rcases hd with hm | hs
      · exact hasNodeChanged_of_modified _ n tr (by rw [hid]; exact htr) hm
      · exact hasNodeChanged_of_subtree _ n tr (by rw [hid]; exact htr) hs
    · obtain ⟨tr, htr, hs⟩ := trackThoughtChange_child_dirty now1 cid flag st id c hc hp hids
      exact hasNodeChanged_of_subtree _ n tr (by rw [hid]; exact htr) hs
  refine ⟨hdirty, ?_⟩
  obtain ⟨ct, hshape⟩ := trackThoughtChange_shape now1 cid flag st
  have hfind2 : (trackThoughtChange now1 cid flag st).findThought id = some n := by
    rw [findThought_eq_of_tree_eq (trackThoughtChange now1 cid flag st) st (by rw [hshape]) id,
      hfind]
  exact analyzeDepth_recompute_of_dirty now2 (trackThoughtChange now1 cid flag st) id n
    hfind2 hdirty

/-- Witness for C1's amended claim: a change recorded on the immediate
child `A` of `root` makes the next lookup of `root` recompute. -/
theorem claim_c1_amended_witness :
    hasNodeChanged (trackThoughtChange 7 "A" false exStateTracked) exRoot = true ∧
    analyzeDepth 8 (trackThoughtChange 7 "A" false exStateTracked) "root" =
      analyzeDepthCompute 8
        (getCachedAnalysis 8 "root" (trackThoughtChange 7 "A" false exStateTracked)).2 "root"
        (getCachedAnalysis 8 "root" (trackThoughtChange 7 "A" false exStateTracked)).1 :=
  claim_c1_amended 7 8 exStateTracked "root" "A" false exRoot rfl rfl
    (Or.inr ⟨exNodeA, rfl, rfl, by decide⟩)

/-! ## Claim C7: consecutive lookups on an unmodified node -/

/-- A single `analyzeDepth` call on a clean node with a fresh cache entry
returns the cached snapshot and bumps exactly the hit counter and the
entry's access counter (sliding the timestamp to now). -/
theorem analyzeDepth_hit (now : Nat) (st : ServerState) (id : String) (n : FThought)
    (entry : CachedAnalysis) (tr : ThoughtChangeTracker)
    (hfind : st.findThought id = some n) (hid : n.thoughtId = id)
    (hentry : mapGet st.analysisCache id = some entry)
    (hfresh : jsGtJVal (JSNum.ofInt ((now : Int) - (entry.timestamp : Int)))
      (getCacheExpiration st.cacheConfig entry.fullAnalysis) = false)
    (htr : mapGet st.changeTracker id = some tr)
    (hclean1 : ¬ tr.lastAnalysis < tr.lastModified)
    (hclean2 : tr.subthoughtChanges = false) :
    analyzeDepth now st id = some (entry.fullAnalysis,
      { st with
        analysisCache := mapSet st.analysisCache id
          { entry with accessCount := entry.accessCount + 1, timestamp := now }
        cacheStats := { st.cacheStats with hits := st.cacheStats.hits + 1 } }) := by
  have hchanged : hasNodeChanged
      ({ st with
        analysisCache := mapSet st.analysisCache id
          { entry with accessCount := entry.accessCount + 1, timestamp := now }
        cacheStats := { st.cacheStats with hits := st.cacheStats.hits + 1 } } : ServerState) n = false := by
    unfold hasNodeChanged
    show (match mapGet st.changeTracker n.thoughtId with
      | none => true
      | some tracker => if tracker.lastAnalysis < tracker.lastModified then true
        else if tracker.subthoughtChanges then true else false) = false
    rw [hid, htr]
    simp [hclean1, hclean2]
  unfold analyzeDepth getCachedAnalysis
  rw [hentry]
  dsimp only
  rw [hfresh]
  simp only [Bool.false_eq_true, if_false]
  rw [show ({ st with
      analysisCache := mapSet st.analysisCache id
        { entry with accessCount := entry.accessCount + 1, timestamp := now }
      cacheStats := { st.cacheStats with hits := st.cacheStats.hits + 1 } } : ServerState).findThought id
    = st.findThought id from rfl, hfind]
  dsimp only
  rw [hchanged]
  rfl

/-- C7: two consecutive `analyzeDepth` calls on an unmodified node with a
fresh cache entry both return the identical cached `AnalysisResult`
snapshot; each call increments the global hit counter and the entry's
access counter and leaves the miss counter unchanged.
(`hfresh0` says a zero-age entry is within its TTL, which holds for every
configuration with nonnegative clamp bounds, in particular the default.) -/
theorem claim_c7_consecutive_hits (now : Nat) (st : ServerState) (id : String)
    (n : FThought) (entry : CachedAnalysis) (tr : ThoughtChangeTracker)
    (hfind : st.findThought id = some n) (hid : n.thoughtId = id)
    (hentry : mapGet st.analysisCache id = some entry)
    (hfresh : jsGtJVal (JSNum.ofInt ((now : Int) - (entry.timestamp : Int)))
      (getCacheExpiration st.cacheConfig entry.fullAnalysis) = false)
    (hfresh0 : jsGtJVal (JSNum.ofInt 0)
      (getCacheExpiration st.cacheConfig entry.fullAnalysis) = false)
    (htr : mapGet st.changeTracker id = some tr)
    (hclean1 : ¬ tr.lastAnalysis < tr.lastModified)
    (hclean2 : tr.subthoughtChanges = false) :
    analyzeDepth now st id = some (entry.fullAnalysis,
      { st with
        analysisCache := mapSet st.analysisCache id
          { entry with accessCount := entry.accessCount + 1, timestamp := now }
        cacheStats := { st.cacheStats with hits := st.cacheStats.hits + 1 } }) ∧
    ({ st with
        analysisCache := mapSet st.analysisCache id
          { entry with accessCount := entry.accessCount + 1, timestamp := now }
        cacheStats := { st.cacheStats with hits := st.cacheStats.hits + 1 } } : ServerState).cacheStats.hits
      = st.cacheStats.hits + 1 ∧
    ({ st with
        analysisCache := mapSet st.analysisCache id
          { entry with accessCount := entry.accessCount + 1, timestamp := now }
        cacheStats := { st.cacheStats with hits := st.cacheStats.hits + 1 } } : ServerState).cacheStats.misses
      = st.cacheStats.misses ∧
    analyzeDepth now
      ({ st with
        analysisCache := mapSet st.analysisCache id
          { entry with accessCount := entry.accessCount + 1, timestamp := now }
        cacheStats := { st.cacheStats with hits := st.cacheStats.hits + 1 } }) id =
      some (entry.fullAnalysis,
        { st with
          analysisCache := mapSet (mapSet st.analysisCache id
            { entry with accessCount := entry.accessCount + 1, timestamp := now }) id
            { entry with accessCount := entry.accessCount + 2, timestamp := now }
          cacheStats := { st.cacheStats with hits := st.cacheStats.hits + 2 } }) := by
  refine ⟨analyzeDepth_hit now st id n entry tr hfind hid hentry hfresh htr hclean1 hclean2,
    rfl, rfl, ?_⟩
  have h2 := analyzeDepth_hit now
    ({ st with
      analysisCache := mapSet st.analysisCache id
        { entry with accessCount := entry.accessCount + 1, timestamp := now }
      cacheStats := { st.cacheStats with hits := st.cacheStats.hits + 1 } }) id n
    ({ entry with accessCount := entry.accessCount + 1, timestamp := now }) tr
    (by rw [show ({ st with
        analysisCache := mapSet st.analysisCache id
          { entry with accessCount := entry.accessCount + 1, timestamp := now }
        cacheStats := { st.cacheStats with hits := st.cacheStats.hits + 1 } } : ServerState).findThought id
      = st.findThought id from rfl, hfind])
    hid
    (mapGet_mapSet_self _ _ _)
    (by
      show jsGtJVal (JSNum.ofInt ((now : Int) - (now : Int)))
        (getCacheExpiration st.cacheConfig entry.fullAnalysis) = false
      rw [Int.sub_self]
      exact hfresh0)
    htr hclean1 hclean2
  exact h2

/-- Witness for C7 on a concrete cached, clean state. -/
theorem claim_c7_consecutive_hits_witness :
    analyzeDepth 5 exStateCached "root" = some (exCacheEntry.fullAnalysis,
      { exStateCached with
        analysisCache := mapSet exStateCached.analysisCache "root"
          { exCacheEntry with accessCount := exCacheEntry.accessCount + 1, timestamp := 5 }
        cacheStats := { exStateCached.cacheStats with
          hits := exStateCached.cacheStats.hits + 1 } }) :=
  (claim_c7_consecutive_hits 5 exStateCached "root" exRoot exCacheEntry ⟨0, false, 0⟩
    rfl rfl rfl (by decide) (by decide) rfl (by decide) rfl).1

/-! ## Claim C8: completionRatio is monotone under completing one node -/

theorem cntTotalList_append (a b : List FThought) :
    cntTotalList (a ++ b) = cntTotalList a + cntTotalList b := by
  induction a with
  | nil => simp [cntTotalList]
  | cons c cs ih =>
    simp only [List.cons_append, cntTotalList, List.append_eq] at ih ⊢
    omega

theorem cntUnresolvedList_append (a b : List FThought) :
    cntUnresolvedList (a ++ b) = cntUnresolvedList a + cntUnresolvedList b := by
  induction a with
  | nil => simp [cntUnresolvedList]
  | cons c cs ih =>
    simp only [List.cons_append, cntUnresolvedList, List.append_eq] at ih ⊢
    omega

/-- Flipping one node `isComplete: false → true` preserves the node count. -/
theorem flipOne_cntTotal {t t2 : FThought} (h : FlipOne t t2) :
    cntTotal t2 = cntTotal t := by
  induction h with
  | here th tid d pid subs needs created => rfl
  | child th tid d pid pre post c c2 complete needs created hcc ih =>
    simp only [cntTotal, cntTotalList_append, cntTotalList, ih]

/-- Flipping one node `isComplete: false → true` reduces the unresolved
count by exactly one. -/
theorem flipOne_cntUnresolved {t t2 : FThought} (h : FlipOne t t2) :
    cntUnresolved t = cntUnresolved t2 + 1 := by
  induction h with
  | here th tid d pid subs needs created =>
    simp only [cntUnresolved]
    simp
    omega
  | child th tid d pid pre post c c2 complete needs created hcc ih =>
    simp only [cntUnresolved, cntUnresolvedList_append, cntUnresolvedList]
    omega

theorem cntTotal_pos (t : FThought) : 1 ≤ cntTotal t := by
  cases t with
  | node th tid d pid subs complete needs created =>
    simp only [cntTotal]
    omega

mutual
theorem cntUnresolved_le_cntTotal (t : FThought) : cntUnresolved t ≤ cntTotal t := by
  cases t with
  | node th tid d pid subs complete needs created =>
    have hl := cntUnresolvedList_le_cntTotalList subs
    cases complete <;> simp [cntUnresolved, cntTotal] <;> omega
theorem cntUnresolvedList_le_cntTotalList (l : List FThought) :
    cntUnresolvedList l ≤ cntTotalList l := by
  cases l with
  | nil => simp [cntUnresolvedList, cntTotalList]
  | cons c cs =>
    have h1 := cntUnresolved_le_cntTotal c
    have h2 := cntUnresolvedList_le_cntTotalList cs
    simp only [cntUnresolvedList, cntTotalList]
    omega
end

mutual
/-- Over an empty analysis cache (and any `previous = none`),
`analyzeNodeIncremental` computes the structural counts, keeping the
analysis cache empty. -/
theorem freshCounts_node (now : Nat) (t : FThought) (st : ServerState)
    (hac : st.analysisCache = []) :
    ((analyzeNodeIncremental now t none st).1.totalCount = cntTotal t ∧
     (analyzeNodeIncremental now t none st).1.unresolvedCount = cntUnresolved t) ∧
    (analyzeNodeIncremental now t none st).2.analysisCache = [] := by
  cases t with
  | node th tid d pid subs complete needs created =>
    have hred : analyzeNodeIncremental now (.node th tid d pid subs complete needs created) none st =
        analyzeSubThoughts now subs ⟨d, if complete then 0 else 1, 1, false⟩ st := rfl
    rw [hred]
    have hl := freshCounts_list now subs ⟨d, if complete then 0 else 1, 1, false⟩ st hac
    obtain ⟨⟨hT, hU⟩, hS⟩ := hl
    refine ⟨⟨?_, ?_⟩, hS⟩
    · rw [hT]
      simp only [cntTotal]
    · rw [hU]
      simp only [cntUnresolved]
theorem freshCounts_list (now : Nat) (l : List FThought) (acc : IncResult)
    (st : ServerState) (hac : st.analysisCache = []) :
    ((analyzeSubThoughts now l acc st).1.totalCount = acc.totalCount + cntTotalList l ∧
     (analyzeSubThoughts now l acc st).1.unresolvedCount =
       acc.unresolvedCount + cntUnresolvedList l) ∧
    (analyzeSubThoughts now l acc st).2.analysisCache = [] := by
  cases l with
  | nil =>
    refine ⟨⟨?_, ?_⟩, hac⟩ <;> simp [analyzeSubThoughts, cntTotalList, cntUnresolvedList]
  | cons c cs =>
    have h1 : getCachedAnalysis now c.thoughtId st =
        (none, { st with cacheStats :=
          { st.cacheStats with misses := st.cacheStats.misses + 1 } }) := by
      unfold getCachedAnalysis
      rw [show mapGet st.analysisCache c.thoughtId = none from by rw [hac]; rfl]
    have hstep : analyzeSubThoughts now (c :: cs) acc st =
        analyzeSubThoughts now cs
          { maxDepth := Nat.max acc.maxDepth
              (analyzeNodeIncremental now c (getCachedAnalysis now c.thoughtId st).1
                (getCachedAnalysis now c.thoughtId st).2).1.maxDepth
          , unresolvedCount := acc.unresolvedCount +
              (analyzeNodeIncremental now c (getCachedAnalysis now c.thoughtId st).1
                (getCachedAnalysis now c.thoughtId st).2).1.unresolvedCount
          , totalCount := acc.totalCount +
              (analyzeNodeIncremental now c (getCachedAnalysis now c.thoughtId st).1
                (getCachedAnalysis now c.thoughtId st).2).1.totalCount
          , hasUnresolvedWithDeeperAnalysis := acc.hasUnresolvedWithDeeperAnalysis ||
              (analyzeNodeIncremental now c (getCachedAnalysis now c.thoughtId st).1
                (getCachedAnalysis now c.thoughtId st).2).1.hasUnresolvedWithDeeperAnalysis }
          (analyzeNodeIncremental now c (getCachedAnalysis now c.thoughtId st).1
            (getCachedAnalysis now c.thoughtId st).2).2 := rfl
    rw [hstep, h1]
    dsimp only
    have hn := freshCounts_node now c
      ({ st with cacheStats := { st.cacheStats with misses := st.cacheStats.misses + 1 } }) hac
    rcases hni : analyzeNodeIncremental now c none
      ({ st with cacheStats := { st.cacheStats with misses := st.cacheStats.misses + 1 } })
      with ⟨subRes, st2⟩
    rw [hni] at hn
    obtain ⟨⟨hcT, hcU⟩, hcS⟩ := hn
    dsimp only at hcT hcU hcS ⊢
    have hl := freshCounts_list now cs
      { maxDepth := Nat.max acc.maxDepth subRes.maxDepth
      , unresolvedCount := acc.unresolvedCount + subRes.unresolvedCount
      , totalCount := acc.totalCount + subRes.totalCount
      , hasUnresolvedWithDeeperAnalysis :=
          acc.hasUnresolvedWithDeeperAnalysis || subRes.hasUnresolvedWithDeeperAnalysis } st2 hcS
    obtain ⟨⟨hT, hU⟩, hS⟩ := hl
    refine ⟨⟨?_, ?_⟩, hS⟩
    · rw [hT]
      dsimp only
      rw [hcT]
      simp only [cntTotalList]
      omega
    · rw [hU]
      dsimp only
      rw [hcU]
      simp only [cntUnresolvedList]
      omega
end

/-- The rational value of the `completionRatio` built from fresh counts. -/
theorem toRat_completionRatioOfCounts (r : IncResult) (hT : 0 < r.totalCount) :
    (completionRatioOfCounts r).toRat =
      ((r.totalCount : ℚ) - (r.unresolvedCount : ℚ)) / (r.totalCount : ℚ) := by
  unfold completionRatioOfCounts JSNum.div JSNum.ofInt JSNum.ofNat JSNum.toRat
  have h0 : ¬ ((r.totalCount : Int) = 0) := by
    simp
    omega
  rw [if_neg h0, if_neg (by simp)]
  dsimp only
  push_cast
  simp

/-- C8: the freshly recomputed `completionRatio` of any subtree is
non-decreasing under any single `isComplete: false → true` flip (the
tree otherwise unchanged). -/
theorem claim_c8_completionRatio_monotone (t t2 : FThought) (h : FlipOne t t2) :
    (completionRatioOfCounts (freshCounts t)).toRat ≤
      (completionRatioOfCounts (freshCounts t2)).toRat := by
  obtain ⟨⟨hT, hU⟩, -⟩ := freshCounts_node 0 t blankAnalysisState rfl
  obtain ⟨⟨hT2, hU2⟩, -⟩ := freshCounts_node 0 t2 blankAnalysisState rfl
  have hTpos : 0 < (freshCounts t).totalCount := by
    unfold freshCounts
    rw [hT]
    have := cntTotal_pos t
    omega
  have hTpos2 : 0 < (freshCounts t2).totalCount := by
    unfold freshCounts
    rw [hT2]
    have := cntTotal_pos t2
    omega
  rw [toRat_completionRatioOfCounts _ hTpos, toRat_completionRatioOfCounts _ hTpos2]
  unfold freshCounts
  rw [hT, hU, hT2, hU2, flipOne_cntTotal h, flipOne_cntUnresolved h]
  have hpos : (0 : ℚ) < (cntTotal t : ℚ) := by
    have h1 := cntTotal_pos t
    exact_mod_cast Nat.lt_of_lt_of_le Nat.zero_lt_one h1
  rw [div_le_div_iff_of_pos_right hpos]
  push_cast
  linarith

/-- Witness for C8: completing the single incomplete leaf. -/
theorem claim_c8_completionRatio_monotone_witness :
    (completionRatioOfCounts (freshCounts (.node "x" "x" 0 none [] false false ""))).toRat ≤
      (completionRatioOfCounts (freshCounts (.node "x" "x" 0 none [] true false ""))).toRat :=
  claim_c8_completionRatio_monotone _ _ (FlipOne.here "x" "x" 0 none [] false "")

/-! ## C2: cache capacity and batch eviction of the oldest entries -/

theorem insertBy_perm (le : α → α → Bool) (l : List α) (x : α) :
    List.Perm (insertBy le l x) (x :: l) := by
  induction l with
  | nil => exact List.Perm.refl _
  | cons y ys ih =>
    by_cases h : le y x = true
    · simp only [insertBy, if_pos h]
      exact (ih.cons y).trans (List.Perm.swap x y ys)
    · simp only [insertBy, if_neg h]
      exact List.Perm.refl _

theorem foldl_insertBy_perm (le : α → α → Bool) (l : List α) :
    ∀ acc : List α, List.Perm (l.foldl (fun acc x => insertBy le acc x) acc) (acc ++ l) := by
  induction l with
  | nil => intro acc; simp
  | cons x xs ih =>
    intro acc
    have h2 := ih (insertBy le acc x)
    have h3 : List.Perm (insertBy le acc x ++ xs) ((x :: acc) ++ xs) :=
      (insertBy_perm le acc x).append_right xs
    have h4 : List.Perm ((x :: acc) ++ xs) (acc ++ x :: xs) := List.perm_middle.symm
    exact (h2.trans h3).trans h4

theorem stableSortBy_perm (le : α → α → Bool) (l : List α) :
    List.Perm (stableSortBy le l) l := by
  have h := foldl_insertBy_perm le l []
  simpa [stableSortBy] using h

theorem insertBy_pairwise (le : α → α → Bool)
    (htot : ∀ a b, le a b = true ∨ le b a = true)
    (htrans : ∀ a b c, le a b = true → le b c = true → le a c = true)
    (x : α) :
    ∀ l : List α, l.Pairwise (fun a b => le a b = true) →
      (insertBy le l x).Pairwise (fun a b => le a b = true) := by
  intro l
  induction l with
  | nil => intro _; simp [insertBy]
  | cons y ys ih =>
    intro h
    rw [List.pairwise_cons] at h
    obtain ⟨hy, hys⟩ := h
    by_cases hle : le y x = true
    · simp only [insertBy, if_pos hle]
      rw [List.pairwise_cons]
      refine ⟨?_, ih hys⟩
      intro z hz
      have hz2 : z ∈ x :: ys := (insertBy_perm le ys x).mem_iff.mp hz
      rcases List.mem_cons.mp hz2 with rfl | hz3
      · exact hle
      · exact hy z hz3
    · simp only [insertBy, if_neg hle]
      rw [List.pairwise_cons]
      have hxy : le x y = true := by
        rcases htot x y with h1 | h1
        · exact h1
        · exact absurd h1 hle
      refine ⟨?_, List.pairwise_cons.mpr ⟨hy, hys⟩⟩
      intro z hz
      rcases List.mem_cons.mp hz with rfl | hz2
      · exact hxy
      · exact htrans x y z hxy (hy z hz2)

theorem stableSortBy_pairwise (le : α → α → Bool)
    (htot : ∀ a b, le a b = true ∨ le b a = true)
    (htrans : ∀ a b c, le a b = true → le b c = true → le a c = true)
    (l : List α) :
    (stableSortBy le l).Pairwise (fun a b => le a b = true) := by
  have key : ∀ (m acc : List α), acc.Pairwise (fun a b => le a b = true) →
      (m.foldl (fun acc x => insertBy le acc x) acc).Pairwise (fun a b => le a b = true) := by
    intro m
    induction m with
    | nil => intro acc h; exact h
    | cons x xs ih =>
      intro acc h
      exact ih (insertBy le acc x) (insertBy_pairwise le htot htrans x acc h)
  exact key l [] List.Pairwise.nil

theorem keyed_mem_inj {β : Type} :
    ∀ l : List (String × β), (l.map Prod.fst).Nodup →
      ∀ x ∈ l, ∀ y ∈ l, x.1 = y.1 → x = y := by
  intro l
  induction l with
  | nil => intro _ x hx; exact absurd hx (List.not_mem_nil x)
  | cons kv rest ih =>
    intro hnd x hx y hy hk
    simp only [List.map_cons, List.nodup_cons] at hnd
    obtain ⟨hnotin, hnd2⟩ := hnd
    rcases List.mem_cons.mp hx with rfl | hx2
    · rcases List.mem_cons.mp hy with rfl | hy2
      · rfl
      · exfalso
        have hm : y.1 ∈ rest.map Prod.fst := List.mem_map_of_mem Prod.fst hy2
        rw [← hk] at hm
        exact hnotin hm
    · rcases List.mem_cons.mp hy with rfl | hy2
      · exfalso
        have hm : x.1 ∈ rest.map Prod.fst := List.mem_map_of_mem Prod.fst hx2
        rw [hk] at hm
        exact hnotin hm
      · exact ih hnd2 x hx2 y hy2 hk

theorem residentEntries_key_tag_inj (st : ServerState)
    (hA : (st.analysisCache.map Prod.fst).Nodup)
    (hG : (st.aggregateCache.map Prod.fst).Nodup) :
    ∀ x ∈ residentEntries st, ∀ y ∈ residentEntries st,
      x.1 = y.1 → x.2.2 = y.2.2 → x = y := by
  intro x hx y hy hk ht
  simp only [residentEntries, List.mem_append, List.mem_map] at hx hy
  rcases hx with ⟨kv, hkv, rfl⟩ | ⟨kv, hkv, rfl⟩
  · rcases hy with ⟨kv2, hkv2, rfl⟩ | ⟨kv2, hkv2, rfl⟩
    · have h := keyed_mem_inj st.analysisCache hA kv hkv kv2 hkv2 hk
      rw [h]
    · simp at ht
  · rcases hy with ⟨kv2, hkv2, rfl⟩ | ⟨kv2, hkv2, rfl⟩
    · simp at ht
    · have h := keyed_mem_inj st.aggregateCache hG kv hkv kv2 hkv2 hk
      rw [h]

theorem keepA_eq (tE : List (String × Nat × Bool)) (kv : String × CachedAnalysis) :
    (decide ¬(tE.any (fun e => e.2.2 && decide (e.1 = kv.1)) = true))
      = evictKeep tE (kv.1, kv.2.timestamp, true) := by
  simp only [evictKeep, decide_not]
  congr 1
  · simp

theorem keepG_eq (tE : List (String × Nat × Bool)) (kv : String × AggregateSummary) :
    (decide ¬(tE.any (fun e => !e.2.2 && decide (e.1 = kv.1)) = true))
      = evictKeep tE (kv.1, kv.2.timestamp, false) := by
  simp only [evictKeep, decide_not]
  congr 1
  · simp

theorem countP_keepA (tE : List (String × Nat × Bool)) (A : List (String × CachedAnalysis)) :
    List.countP (fun kv => decide ¬(tE.any (fun e => e.2.2 && decide (e.1 = kv.1)) = true)) A
      = List.countP (evictKeep tE) (A.map (fun kv => (kv.1, kv.2.timestamp, true))) := by
  rw [List.countP_map]
  apply List.countP_congr
  intro kv _
  show (decide ¬(tE.any (fun e => e.2.2 && decide (e.1 = kv.1)) = true)) = true ↔
    evictKeep tE (kv.1, kv.2.timestamp, true) = true
  rw [keepA_eq tE kv]

theorem countP_keepG (tE : List (String × Nat × Bool)) (G : List (String × AggregateSummary)) :
    List.countP (fun kv => decide ¬(tE.any (fun e => !e.2.2 && decide (e.1 = kv.1)) = true)) G
      = List.countP (evictKeep tE) (G.map (fun kv => (kv.1, kv.2.timestamp, false))) := by
  rw [List.countP_map]
  apply List.countP_congr
  intro kv _
  show (decide ¬(tE.any (fun e => !e.2.2 && decide (e.1 = kv.1)) = true)) = true ↔
    evictKeep tE (kv.1, kv.2.timestamp, false) = true
  rw [keepG_eq tE kv]

theorem countP_keep_take_zero (c : Nat) (sorted : List (String × Nat × Bool)) :
    List.countP (evictKeep (sorted.take c)) (sorted.take c) = 0 := by
  apply List.countP_eq_zero.mpr
  intro ev hev
  have hany : (sorted.take c).any (fun e => (e.2.2 == ev.2.2) && decide (e.1 = ev.1)) = true :=
    List.any_eq_true.mpr ⟨ev, hev, by simp⟩
  simp [evictKeep, hany]

theorem totalResident_evict_le (c : Nat) (st : ServerState) :
    totalResident (evictLeastUsedEntries c st) ≤ totalResident st - c := by
  have hAeq : (evictLeastUsedEntries c st).analysisCache
      = st.analysisCache.filter (fun kv =>
          ¬ ((stableSortBy (fun a b => decide (a.2.1 ≤ b.2.1)) (residentEntries st)).take c).any
            (fun e => e.2.2 && e.1 = kv.1)) := rfl
  have hGeq : (evictLeastUsedEntries c st).aggregateCache
      = st.aggregateCache.filter (fun kv =>
          ¬ ((stableSortBy (fun a b => decide (a.2.1 ≤ b.2.1)) (residentEntries st)).take c).any
            (fun e => !e.2.2 && e.1 = kv.1)) := rfl
  have hTeq : totalResident (evictLeastUsedEntries c st)
      = (evictLeastUsedEntries c st).analysisCache.length
        + (evictLeastUsedEntries c st).aggregateCache.length := rfl
  rw [hTeq, hAeq, hGeq, ← List.countP_eq_length_filter, ← List.countP_eq_length_filter]
  rw [countP_keepA, countP_keepG, ← List.countP_append]
  have hres : st.analysisCache.map (fun kv => (kv.1, kv.2.timestamp, true))
      ++ st.aggregateCache.map (fun kv => (kv.1, kv.2.timestamp, false))
      = residentEntries st := rfl
  rw [hres]
  rw [((stableSortBy_perm (fun a b => decide (a.2.1 ≤ b.2.1)) (residentEntries st)).symm.countP_eq
    (evictKeep ((stableSortBy (fun a b => decide (a.2.1 ≤ b.2.1)) (residentEntries st)).take c)))]
  have hsplit2 : ∀ Q : (String × Nat × Bool) → Bool,
      List.countP Q (stableSortBy (fun a b : String × Nat × Bool => decide (a.2.1 ≤ b.2.1))
          (residentEntries st))
        = List.countP Q ((stableSortBy (fun a b : String × Nat × Bool => decide (a.2.1 ≤ b.2.1))
            (residentEntries st)).take c)
          + List.countP Q ((stableSortBy (fun a b : String × Nat × Bool => decide (a.2.1 ≤ b.2.1))
            (residentEntries st)).drop c) := by
    intro Q
    conv_lhs => rw [← List.take_append_drop c
      (stableSortBy (fun a b : String × Nat × Bool => decide (a.2.1 ≤ b.2.1))
        (residentEntries st))]
    rw [List.countP_append]
  rw [hsplit2, countP_keep_take_zero]
  have hle := List.countP_le_length
    (evictKeep ((stableSortBy (fun a b : String × Nat × Bool => decide (a.2.1 ≤ b.2.1))
      (residentEntries st)).take c))
    (l := (stableSortBy (fun a b : String × Nat × Bool => decide (a.2.1 ≤ b.2.1))
      (residentEntries st)).drop c)
  have hdl := List.length_drop c
    (stableSortBy (fun a b : String × Nat × Bool => decide (a.2.1 ≤ b.2.1)) (residentEntries st))
  have hsl : (stableSortBy (fun a b : String × Nat × Bool => decide (a.2.1 ≤ b.2.1))
      (residentEntries st)).length = totalResident st := by
    rw [(stableSortBy_perm (fun a b => decide (a.2.1 ≤ b.2.1)) (residentEntries st)).length_eq]
    simp [residentEntries, totalResident]
  omega

theorem mem_residentEntries_evict (c : Nat) (st : ServerState) (x : String × Nat × Bool) :
    x ∈ residentEntries (evictLeastUsedEntries c st) ↔
      x ∈ residentEntries st ∧
        evictKeep ((stableSortBy (fun a b => decide (a.2.1 ≤ b.2.1))
          (residentEntries st)).take c) x = true := by
  have hAeq : (evictLeastUsedEntries c st).analysisCache
      = st.analysisCache.filter (fun kv =>
          ¬ ((stableSortBy (fun a b => decide (a.2.1 ≤ b.2.1)) (residentEntries st)).take c).any
            (fun e => e.2.2 && e.1 = kv.1)) := rfl
  have hGeq : (evictLeastUsedEntries c st).aggregateCache
      = st.aggregateCache.filter (fun kv =>
          ¬ ((stableSortBy (fun a b => decide (a.2.1 ≤ b.2.1)) (residentEntries st)).take c).any
            (fun e => !e.2.2 && e.1 = kv.1)) := rfl
  have hres : residentEntries (evictLeastUsedEntries c st)
      = (evictLeastUsedEntries c st).analysisCache.map (fun kv => (kv.1, kv.2.timestamp, true))
        ++ (evictLeastUsedEntries c st).aggregateCache.map
            (fun kv => (kv.1, kv.2.timestamp, false)) := rfl
  rw [hres, hAeq, hGeq]
  constructor
  · intro hx
    rcases List.mem_append.mp hx with hx1 | hx1
    · obtain ⟨kv, hkvmem, rfl⟩ := List.mem_map.mp hx1
      obtain ⟨hkvA, hkeep⟩ := List.mem_filter.mp hkvmem
      refine ⟨List.mem_append.mpr (Or.inl (List.mem_map_of_mem _ hkvA)), ?_⟩
      exact (keepA_eq _ kv).symm.trans hkeep
    · obtain ⟨kv, hkvmem, rfl⟩ := List.mem_map.mp hx1
      obtain ⟨hkvG, hkeep⟩ := List.mem_filter.mp hkvmem
      refine ⟨List.mem_append.mpr (Or.inr (List.mem_map_of_mem _ hkvG)), ?_⟩
      exact (keepG_eq _ kv).symm.trans hkeep
  · rintro ⟨hx, hkeep⟩
    rcases List.mem_append.mp hx with hx1 | hx1
    · obtain ⟨kv, hkvA, rfl⟩ := List.mem_map.mp hx1
      refine List.mem_append.mpr (Or.inl ?_)
      refine List.mem_map.mpr ⟨kv, ?_, rfl⟩
      exact List.mem_filter.mpr ⟨hkvA, (keepA_eq _ kv).trans hkeep⟩
    · obtain ⟨kv, hkvG, rfl⟩ := List.mem_map.mp hx1
      refine List.mem_append.mpr (Or.inr ?_)
      refine List.mem_map.mpr ⟨kv, ?_, rfl⟩
      exact List.mem_filter.mpr ⟨hkvG, (keepG_eq _ kv).trans hkeep⟩

theorem evicted_oldest (c : Nat) (st : ServerState)
    (hA : (st.analysisCache.map Prod.fst).Nodup)
    (hG : (st.aggregateCache.map Prod.fst).Nodup) :
    ∀ e ∈ residentEntries st, e ∉ residentEntries (evictLeastUsedEntries c st) →
      ∀ f ∈ residentEntries (evictLeastUsedEntries c st), e.2.1 ≤ f.2.1 := by
  intro e he hegone f hf
  obtain ⟨hfres, hfkeep⟩ := (mem_residentEntries_evict c st f).mp hf
  have hfs : f ∈ stableSortBy (fun a b : String × Nat × Bool => decide (a.2.1 ≤ b.2.1))
      (residentEntries st) :=
    ((stableSortBy_perm (fun a b => decide (a.2.1 ≤ b.2.1)) (residentEntries st)).mem_iff).mpr hfres
  have hfnt : f ∉ (stableSortBy (fun a b : String × Nat × Bool => decide (a.2.1 ≤ b.2.1))
      (residentEntries st)).take c := by
    intro hmem
    have hany : ((stableSortBy (fun a b : String × Nat × Bool => decide (a.2.1 ≤ b.2.1))
        (residentEntries st)).take c).any
        (fun ev => (ev.2.2 == f.2.2) && decide (ev.1 = f.1)) = true :=
      List.any_eq_true.mpr ⟨f, hmem, by simp⟩
    have hk2 : evictKeep ((stableSortBy (fun a b : String × Nat × Bool => decide (a.2.1 ≤ b.2.1))
        (residentEntries st)).take c) f = false := by
      simp [evictKeep, hany]
    rw [hfkeep] at hk2
    exact absurd hk2 (by decide)
  have hfdrop : f ∈ (stableSortBy (fun a b : String × Nat × Bool => decide (a.2.1 ≤ b.2.1))
      (residentEntries st)).drop c := by
    have hsplit := List.take_append_drop c
      (stableSortBy (fun a b : String × Nat × Bool => decide (a.2.1 ≤ b.2.1)) (residentEntries st))
    have hm : f ∈ (stableSortBy (fun a b : String × Nat × Bool => decide (a.2.1 ≤ b.2.1))
        (residentEntries st)).take c ++
        (stableSortBy (fun a b : String × Nat × Bool => decide (a.2.1 ≤ b.2.1))
          (residentEntries st)).drop c := by
      rw [hsplit]; exact hfs
    rcases List.mem_append.mp hm with h | h
    · exact absurd h hfnt
    · exact h
  have hekeep : evictKeep ((stableSortBy (fun a b : String × Nat × Bool => decide (a.2.1 ≤ b.2.1))
      (residentEntries st)).take c) e = false := by
    cases hval : evictKeep ((stableSortBy (fun a b : String × Nat × Bool => decide (a.2.1 ≤ b.2.1))
        (residentEntries st)).take c) e with
    | false => rfl
    | true => exact absurd ((mem_residentEntries_evict c st e).mpr ⟨he, hval⟩) hegone
  have hany : ((stableSortBy (fun a b : String × Nat × Bool => decide (a.2.1 ≤ b.2.1))
      (residentEntries st)).take c).any
      (fun ev => (ev.2.2 == e.2.2) && decide (ev.1 = e.1)) = true := by
    have h2 : (!((stableSortBy (fun a b : String × Nat × Bool => decide (a.2.1 ≤ b.2.1))
        (residentEntries st)).take c).any
        (fun ev => (ev.2.2 == e.2.2) && decide (ev.1 = e.1))) = false := hekeep
    simpa using h2
  obtain ⟨ev, hevtE, hmatch⟩ := List.any_eq_true.mp hany
  rw [Bool.and_eq_true] at hmatch
  have hkey : ev.1 = e.1 := of_decide_eq_true hmatch.2
  have htag : ev.2.2 = e.2.2 := by
    have := hmatch.1
    rwa [beq_iff_eq] at this
  have hevres : ev ∈ residentEntries st :=
    ((stableSortBy_perm (fun a b => decide (a.2.1 ≤ b.2.1)) (residentEntries st)).mem_iff).mp
      (List.mem_of_mem_take hevtE)
  have heve : ev = e := residentEntries_key_tag_inj st hA hG ev hevres e he hkey htag
  have hetE : e ∈ (stableSortBy (fun a b : String × Nat × Bool => decide (a.2.1 ≤ b.2.1))
      (residentEntries st)).take c := heve ▸ hevtE
  have hpw : (stableSortBy (fun a b : String × Nat × Bool => decide (a.2.1 ≤ b.2.1))
      (residentEntries st)).Pairwise (fun a b => decide (a.2.1 ≤ b.2.1) = true) := by
    apply stableSortBy_pairwise
    · intro a b
      rcases Nat.le_total a.2.1 b.2.1 with h | h
      · exact Or.inl (decide_eq_true h)
      · exact Or.inr (decide_eq_true h)
    · intro a b c2 h1 h2
      exact decide_eq_true (Nat.le_trans (of_decide_eq_true h1) (of_decide_eq_true h2))
  have hpw2 : ((stableSortBy (fun a b : String × Nat × Bool => decide (a.2.1 ≤ b.2.1))
      (residentEntries st)).take c ++
      (stableSortBy (fun a b : String × Nat × Bool => decide (a.2.1 ≤ b.2.1))
        (residentEntries st)).drop c).Pairwise
      (fun a b => decide (a.2.1 ≤ b.2.1) = true) := by
    rw [List.take_append_drop]
    exact hpw
  have horder := (List.pairwise_append.mp hpw2).2.2 e hetE f hfdrop
  exact of_decide_eq_true horder

/-- C2: for every state whose resident entry count exceeds `maxCacheSize`
(with at least capacity 1, as in every configuration the server constructs,
and with duplicate-free cache keys, as JS objects guarantee), the insertion
performed by `cacheAnalysis` first evicts a batch consisting exactly of the
oldest-by-timestamp entries (every evicted entry is no newer than every
surviving one), and after the insertion completes the resident entry count
is at most `maxCacheSize`. -/
theorem claim_c2_capacity (now : Nat) (id : String) (a : FractalAnalysis) (st : ServerState)
    (hM : 1 ≤ st.cacheConfig.maxCacheSize)
    (hover : st.cacheConfig.maxCacheSize < totalResident st)
    (hA : (st.analysisCache.map Prod.fst).Nodup)
    (hG : (st.aggregateCache.map Prod.fst).Nodup) :
    totalResident (cacheAnalysis now id a st) ≤ st.cacheConfig.maxCacheSize ∧
      ∀ e ∈ residentEntries st, e ∉ residentEntries (manageCacheSize st) →
        ∀ f ∈ residentEntries (manageCacheSize st), e.2.1 ≤ f.2.1 := by
  have hmeq : manageCacheSize st
      = evictLeastUsedEntries
          (totalResident st - st.cacheConfig.maxCacheSize + (st.cacheConfig.maxCacheSize + 9) / 10) st := by
    unfold manageCacheSize
    dsimp only
    rw [if_pos hover]
  constructor
  · have hins : totalResident (cacheAnalysis now id a st)
        = (mapSet (manageCacheSize st).analysisCache id
            { timestamp := now, summary := summarizeAnalysis a, key := id
            , fullAnalysis := a, accessCount := 0 }).length
          + (manageCacheSize st).aggregateCache.length := rfl
    have hml := length_mapSet_le (manageCacheSize st).analysisCache id
      { timestamp := now, summary := summarizeAnalysis a, key := id
      , fullAnalysis := a, accessCount := 0 }
    have hmsize : totalResident (manageCacheSize st)
        ≤ st.cacheConfig.maxCacheSize - (st.cacheConfig.maxCacheSize + 9) / 10 := by
      rw [hmeq]
      have h1 := totalResident_evict_le
        (totalResident st - st.cacheConfig.maxCacheSize + (st.cacheConfig.maxCacheSize + 9) / 10) st
      omega
    have h10 : 1 ≤ (st.cacheConfig.maxCacheSize + 9) / 10 :=
      (Nat.le_div_iff_mul_le (by decide)).mpr (by omega)
    have hm2 : totalResident (manageCacheSize st)
        = (manageCacheSize st).analysisCache.length
          + (manageCacheSize st).aggregateCache.length := rfl
    rw [hm2] at hmsize
    rw [hins]
    omega
  · rw [hmeq]
    exact evicted_oldest _ st hA hG

/-- Witness for C2 at a concrete over-capacity state. -/
theorem claim_c2_capacity_witness :
    (1 ≤ exStateOverCap.cacheConfig.maxCacheSize ∧
      exStateOverCap.cacheConfig.maxCacheSize < totalResident exStateOverCap ∧
      (exStateOverCap.analysisCache.map Prod.fst).Nodup ∧
      (exStateOverCap.aggregateCache.map Prod.fst).Nodup) ∧
    (totalResident (cacheAnalysis 10 "root" exAnalysisValue exStateOverCap)
        ≤ exStateOverCap.cacheConfig.maxCacheSize ∧
      ∀ e ∈ residentEntries exStateOverCap,
        e ∉ residentEntries (manageCacheSize exStateOverCap) →
          ∀ f ∈ residentEntries (manageCacheSize exStateOverCap), e.2.1 ≤ f.2.1) :=
  ⟨⟨by decide, by decide, by decide, by decide⟩,
   claim_c2_capacity 10 "root" exAnalysisValue exStateOverCap (by decide) (by decide)
     (by decide) (by decide)⟩

/-! ## C5: decimal rendering and parsing lemmas -/

theorem digitVal_digitChar (n : Nat) (h : n < 10) : digitVal (digitChar n) = n := by
  interval_cases n <;> decide

theorem isDigitChar_digitChar (n : Nat) (h : n < 10) : isDigitChar (digitChar n) = true := by
  interval_cases n <;> decide

theorem natRenderAux_digits : ∀ (fuel n : Nat), ∀ ch ∈ natRenderAux fuel n,
    isDigitChar ch = true := by
  intro fuel
  induction fuel with
  | zero => intro n ch h; exact absurd h (List.not_mem_nil ch)
  | succ f ih =>
    intro n ch h
    simp only [natRenderAux] at h
    by_cases hn : n < 10
    · rw [if_pos hn] at h
      simp only [List.mem_singleton] at h
      rw [h]
      exact isDigitChar_digitChar n hn
    · rw [if_neg hn] at h
      rcases List.mem_append.mp h with h1 | h1
      · exact ih (n / 10) ch h1
      · simp only [List.mem_singleton] at h1
        rw [h1]
        exact isDigitChar_digitChar _ (Nat.mod_lt n (by omega))

theorem natRenderAux_ne_nil (fuel n : Nat) (hf : 0 < fuel) : natRenderAux fuel n ≠ [] := by
  cases fuel with
  | zero => omega
  | succ f =>
    simp only [natRenderAux]
    by_cases hn : n < 10
    · rw [if_pos hn]; simp
    · rw [if_neg hn]; simp

theorem natRender_digits (n : Nat) : ∀ ch ∈ natRender n, isDigitChar ch = true :=
  natRenderAux_digits (n + 1) n

theorem natRender_ne_nil (n : Nat) : natRender n ≠ [] :=
  natRenderAux_ne_nil (n + 1) n (Nat.succ_pos n)

theorem foldDigits_natRenderAux : ∀ (fuel n acc : Nat), n < fuel →
    foldDigits (natRenderAux fuel n) acc = acc * 10 ^ (natRenderAux fuel n).length + n := by
  intro fuel
  induction fuel with
  | zero => intro n acc h; exact absurd h (Nat.not_lt_zero n)
  | succ f ih =>
    intro n acc h
    simp only [natRenderAux]
    by_cases hn : n < 10
    · rw [if_pos hn]
      show foldDigits [digitChar n] acc = acc * 10 ^ ([digitChar n]).length + n
      simp only [foldDigits, List.foldl_cons, List.foldl_nil, List.length_singleton]
      rw [digitVal_digitChar n hn, pow_one]
    · rw [if_neg hn]
      have hdiv : n / 10 < f := by
        have h1 : n / 10 < n := Nat.div_lt_self (by omega) (by omega)
        omega
      have hstep := ih (n / 10) acc hdiv
      show foldDigits (natRenderAux f (n / 10) ++ [digitChar (n % 10)]) acc = _
      rw [foldDigits, List.foldl_append]
      simp only [List.foldl_cons, List.foldl_nil]
      rw [show List.foldl (fun a c => a * 10 + digitVal c) acc (natRenderAux f (n / 10))
            = foldDigits (natRenderAux f (n / 10)) acc from rfl, hstep]
      rw [digitVal_digitChar _ (Nat.mod_lt n (by omega))]
      rw [List.length_append, List.length_singleton]
      calc (acc * 10 ^ (natRenderAux f (n / 10)).length + n / 10) * 10 + n % 10
          = acc * (10 ^ (natRenderAux f (n / 10)).length * 10) + (n / 10 * 10 + n % 10) := by
            ring
        _ = acc * 10 ^ ((natRenderAux f (n / 10)).length + 1) + n := by
            rw [← pow_succ]
            omega

theorem foldDigits_natRender (m : Nat) : foldDigits (natRender m) 0 = m := by
  have h := foldDigits_natRenderAux (m + 1) m 0 (Nat.lt_succ_self m)
  rw [show natRender m = natRenderAux (m + 1) m from rfl, h]
  simp

theorem takeWhile_append_of_all {α : Type} (p : α → Bool) :
    ∀ (l rest : List α), (∀ a ∈ l, p a = true) →
      (l ++ rest).takeWhile p = l ++ rest.takeWhile p := by
  intro l
  induction l with
  | nil => intro rest _; rfl
  | cons x xs ih =>
    intro rest h
    rw [List.cons_append, List.takeWhile_cons, h x (by simp)]
    simp only [if_true]
    rw [ih rest (fun a ha => h a (by simp [ha]))]
    rfl

theorem parseLeadingNat_digits_append (l rest : List Char) (hne : l ≠ [])
    (hdig : ∀ ch ∈ l, isDigitChar ch = true)
    (hrest : ∀ c, rest.head? = some c → isDigitChar c = false) :
    parseLeadingNat (l ++ rest) = some (foldDigits l 0) := by
  cases l with
  | nil => exact absurd rfl hne
  | cons c tl =>
    have hc : isDigitChar c = true := hdig c (by simp)
    show parseLeadingNat (c :: (tl ++ rest)) = _
    simp only [parseLeadingNat]
    rw [if_pos hc]
    have htw : (c :: (tl ++ rest)).takeWhile isDigitChar = (c :: tl) ++ rest.takeWhile isDigitChar := by
      rw [show (c :: (tl ++ rest)) = (c :: tl) ++ rest from rfl]
      exact takeWhile_append_of_all isDigitChar (c :: tl) rest hdig
    rw [htw]
    have hrw : rest.takeWhile isDigitChar = [] := by
      cases rest with
      | nil => rfl
      | cons r rs =>
        rw [List.takeWhile_cons, hrest r (by rfl)]
        simp
    rw [hrw, List.append_nil]

theorem jsParseInt_neg_cons (l : List Char) :
    jsParseInt ('-' :: l) = (parseLeadingNat l).map (fun n => -(n : Int)) := rfl

theorem jsParseInt_not_special (c : Char) (tl : List Char)
    (hcs : c ≠ ' ') (hcm : c ≠ '-') (hcp : c ≠ '+') :
    jsParseInt (c :: tl) = (parseLeadingNat (c :: tl)).map (fun n => (n : Int)) := by
  unfold jsParseInt
  dsimp only
  rw [List.dropWhile_cons]
  rw [if_neg (by simp [hcs])]
  split
  next rest2 heq =>
    exfalso
    rw [List.cons.injEq] at heq
    exact hcm heq.1
  next rest2 heq =>
    exfalso
    rw [List.cons.injEq] at heq
    exact hcp heq.1
  next =>
    rfl

theorem jsParseInt_digits_append (l rest : List Char) (hne : l ≠ [])
    (hdig : ∀ ch ∈ l, isDigitChar ch = true)
    (hrest : ∀ c, rest.head? = some c → isDigitChar c = false) :
    jsParseInt (l ++ rest) = some ((foldDigits l 0 : Nat) : Int) := by
  cases l with
  | nil => exact absurd rfl hne
  | cons c tl =>
    have hc : isDigitChar c = true := hdig c (by simp)
    have hcs : c ≠ ' ' := by intro he; rw [he] at hc; exact absurd hc (by decide)
    have hcm : c ≠ '-' := by intro he; rw [he] at hc; exact absurd hc (by decide)
    have hcp : c ≠ '+' := by intro he; rw [he] at hc; exact absurd hc (by decide)
    show jsParseInt (c :: (tl ++ rest)) = _
    rw [jsParseInt_not_special c (tl ++ rest) hcs hcm hcp]
    rw [show (c :: (tl ++ rest)) = (c :: tl) ++ rest from rfl]
    rw [parseLeadingNat_digits_append (c :: tl) rest hne hdig hrest]
    rfl

theorem jsParseInt_natRender (m : Nat) : jsParseInt (natRender m) = some (m : Int) := by
  have h := jsParseInt_digits_append (natRender m) [] (natRender_ne_nil m)
    (natRender_digits m) (by intro c hc; simp at hc)
  rw [List.append_nil] at h
  rw [h, foldDigits_natRender]

theorem jsParseInt_intRender_append (z : Int) (rest : List Char)
    (hrest : ∀ c, rest.head? = some c → isDigitChar c = false) :
    jsParseInt (intRender z ++ rest) = some z := by
  unfold intRender
  by_cases hz : z < 0
  · rw [if_pos hz]
    rw [show ('-' :: natRender z.natAbs) ++ rest = '-' :: (natRender z.natAbs ++ rest) from rfl]
    rw [jsParseInt_neg_cons]
    rw [parseLeadingNat_digits_append _ rest (natRender_ne_nil _) (natRender_digits _) hrest]
    rw [foldDigits_natRender]
    show some (-((z.natAbs : Nat) : Int)) = some z
    congr 1
    omega
  · rw [if_neg hz]
    rw [jsParseInt_digits_append (natRender z.natAbs) rest (natRender_ne_nil _)
      (natRender_digits _) hrest]
    rw [foldDigits_natRender]
    congr 1
    omega

/-! ## C5: pipe-freedom and splitting of the encoded segments -/

theorem noPipe_natRender (n : Nat) : noPipe (natRender n) := by
  intro ch h he
  have hd := natRender_digits n ch h
  rw [he] at hd
  exact absurd hd (by decide)

theorem noPipe_intRender (z : Int) : noPipe (intRender z) := by
  intro ch h he
  unfold intRender at h
  by_cases hz : z < 0
  · rw [if_pos hz] at h
    rcases List.mem_cons.mp h with h1 | h1
    · rw [h1] at he
      exact absurd he (by decide)
    · have hd := natRender_digits _ ch h1
      rw [he] at hd
      exact absurd hd (by decide)
  · rw [if_neg hz] at h
    have hd := natRender_digits _ ch h
    rw [he] at hd
    exact absurd hd (by decide)

theorem noPipe_append (a b : List Char) (ha : noPipe a) (hb : noPipe b) :
    noPipe (a ++ b) := by
  intro c hc
  rcases List.mem_append.mp hc with h | h
  · exact ha c h
  · exact hb c h

theorem noPipe_cons (c : Char) (l : List Char) (hc : c ≠ '|') (hl : noPipe l) :
    noPipe (c :: l) := by
  intro x hx
  rcases List.mem_cons.mp hx with rfl | h
  · exact hc
  · exact hl x h

theorem noPipe_singleton (c : Char) (hc : c ≠ '|') : noPipe [c] := by
  intro x hx
  rcases List.mem_cons.mp hx with rfl | h
  · exact hc
  · exact absurd h (List.not_mem_nil x)

theorem mem_joinStrings (sep : String) :
    ∀ (l : List String) (ch : Char), ch ∈ (joinStrings sep l).data →
      ch ∈ sep.data ∨ ∃ t ∈ l, ch ∈ t.data := by
  intro l
  induction l with
  | nil =>
    intro ch h
    exact absurd h (List.not_mem_nil ch)
  | cons p ps ih =>
    intro ch h
    cases ps with
    | nil =>
      exact Or.inr ⟨p, by simp, h⟩
    | cons q qs =>
      rw [show joinStrings sep (p :: q :: qs) = p ++ sep ++ joinStrings sep (q :: qs) from rfl] at h
      rw [String.data_append, String.data_append] at h
      rcases List.mem_append.mp h with h1 | h1
      · rcases List.mem_append.mp h1 with h2 | h2
        · exact Or.inr ⟨p, by simp, h2⟩
        · exact Or.inl h2
      · rcases ih ch h1 with h2 | ⟨t, ht, h3⟩
        · exact Or.inl h2
        · exact Or.inr ⟨t, by simp [ht], h3⟩

theorem splitOnChar_no_sep (c : Char) :
    ∀ l : List Char, (∀ ch ∈ l, ch ≠ c) → splitOnChar c l = [l] := by
  intro l
  induction l with
  | nil => intro _; rfl
  | cons x xs ih =>
    intro h
    have hx : x ≠ c := h x (by simp)
    simp only [splitOnChar]
    rw [if_neg hx]
    rw [ih (fun ch hch => h ch (by simp [hch]))]

theorem splitOnChar_append_sep (c : Char) :
    ∀ (a b : List Char), (∀ ch ∈ a, ch ≠ c) →
      splitOnChar c (a ++ c :: b) = a :: splitOnChar c b := by
  intro a
  induction a with
  | nil =>
    intro b _
    show splitOnChar c (c :: b) = [] :: splitOnChar c b
    simp only [splitOnChar]
    simp
  | cons x xs ih =>
    intro b h
    have hx : x ≠ c := h x (by simp)
    show splitOnChar c (x :: (xs ++ c :: b)) = (x :: xs) :: splitOnChar c b
    simp only [splitOnChar]
    rw [if_neg hx, ih b (fun ch hch => h ch (by simp [hch]))]

theorem noPipe_segDepth (r : FractalAnalysis) : noPipe (segDepthChars r) :=
  noPipe_cons _ _ (by decide) (noPipe_natRender _)

theorem noPipe_segCompletion (r : FractalAnalysis) : noPipe (segCompletionChars r) :=
  noPipe_cons _ _ (by decide)
    (noPipe_append _ _ (noPipe_intRender _) (noPipe_singleton _ (by decide)))

theorem noPipe_segPatterns (r : FractalAnalysis)
    (h : ∀ p ∈ r.fractalMetrics.recursivePatterns.take 2, noPipe p.type.data) :
    noPipe (segPatternsChars r) := by
  apply noPipe_cons _ _ (by decide)
  apply noPipe_cons _ _ (by decide)
  apply noPipe_append
  · intro ch hch he
    rcases mem_joinStrings ", " _ ch hch with h1 | ⟨t, ht, h2⟩
    · rw [he] at h1
      exact absurd h1 (by decide)
    · obtain ⟨p, hp, rfl⟩ := List.mem_map.mp ht
      rw [String.data_append, String.data_append, String.data_append] at h2
      rcases List.mem_append.mp h2 with h3 | h3
      · rcases List.mem_append.mp h3 with h4 | h4
        · rcases List.mem_append.mp h4 with h5 | h5
          · exact h p hp ch h5 he
          · rw [he] at h5
            exact absurd h5 (by decide)
        · have hd := natRender_digits _ ch h4
          rw [he] at hd
          exact absurd hd (by decide)
      · rw [he] at h3
        exact absurd h3 (by decide)
  · exact noPipe_singleton _ (by decide)

theorem noPipe_segProps (r : FractalAnalysis)
    (h : ∀ p ∈ r.fractalMetrics.emergentProperties.take 2, noPipe p.property.data) :
    noPipe (segPropsChars r) := by
  apply noPipe_cons _ _ (by decide)
  apply noPipe_cons _ _ (by decide)
  apply noPipe_append
  · intro ch hch he
    rcases mem_joinStrings ", " _ ch hch with h1 | ⟨t, ht, h2⟩
    · rw [he] at h1
      exact absurd h1 (by decide)
    · obtain ⟨p, hp, rfl⟩ := List.mem_map.mp ht
      rw [String.data_append, String.data_append, String.data_append] at h2
      rcases List.mem_append.mp h2 with h3 | h3
      · rcases List.mem_append.mp h3 with h4 | h4
        · rcases List.mem_append.mp h4 with h5 | h5
          · exact h p hp ch h5 he
          · rw [he] at h5
            exact absurd h5 (by decide)
        · exact noPipe_intRender _ ch h4 he
      · rw [he] at h3
        exact absurd h3 (by decide)
  · exact noPipe_singleton _ (by decide)

theorem noPipe_segStrength (r : FractalAnalysis) : noPipe (segStrengthChars r) := by
  apply noPipe_cons _ _ (by decide)
  apply noPipe_append
  · show noPipe (pctStrJVal (jsOrZeroJVal r.fractalMetrics.patternStrength)).data
    cases hX : r.fractalMetrics.patternStrength with
    | negInf =>
      unfold noPipe
      decide
    | fin q => exact noPipe_intRender _
  · exact noPipe_singleton _ (by decide)

theorem summarizeAnalysis_data (r : FractalAnalysis) :
    (summarizeAnalysis r).data
      = segDepthChars r ++ '|' :: (segCompletionChars r ++ '|' ::
          (segPatternsChars r ++ '|' :: (segPropsChars r ++ '|' :: segStrengthChars r))) := by
  have h1 : ("D" : String).data = ['D'] := rfl
  have h2 : ("C" : String).data = ['C'] := rfl
  have h3 : ("%" : String).data = ['%'] := rfl
  have h4 : ("P[" : String).data = ['P', '['] := rfl
  have h5 : ("E[" : String).data = ['E', '['] := rfl
  have h6 : ("]" : String).data = [']'] := rfl
  have h7 : ("S" : String).data = ['S'] := rfl
  have h8 : ("|" : String).data = ['|'] := rfl
  have h9 : ∀ n, (natStr n).data = natRender n := fun _ => rfl
  have h10 : ∀ x, (pctStr x).data = intRender (JSNum.toFixed0 (JSNum.mul x ⟨100, 1⟩)) :=
    fun _ => rfl
  unfold summarizeAnalysis
  dsimp only
  rw [show ∀ a b c d e : String, joinStrings "|" [a, b, c, d, e]
        = a ++ "|" ++ (b ++ "|" ++ (c ++ "|" ++ (d ++ "|" ++ e)))
      from fun a b c d e => rfl]
  unfold segDepthChars segCompletionChars segPatternsChars segPropsChars segStrengthChars
  simp [String.data_append, h1, h2, h3, h4, h5, h6, h7, h8, h9, h10]

theorem summarizeAnalysis_ne_empty (r : FractalAnalysis) : summarizeAnalysis r ≠ "" := by
  intro h
  have h2 : (summarizeAnalysis r).data = [] := by rw [h]
  rw [summarizeAnalysis_data] at h2
  unfold segDepthChars at h2
  simp at h2

theorem split_summarize (r : FractalAnalysis)
    (hpat : ∀ p ∈ r.fractalMetrics.recursivePatterns.take 2, noPipe p.type.data)
    (hprop : ∀ p ∈ r.fractalMetrics.emergentProperties.take 2, noPipe p.property.data) :
    splitOnChar '|' (summarizeAnalysis r).data
      = [segDepthChars r, segCompletionChars r, segPatternsChars r,
         segPropsChars r, segStrengthChars r] := by
  rw [summarizeAnalysis_data]
  rw [splitOnChar_append_sep '|' _ _ (noPipe_segDepth r)]
  rw [splitOnChar_append_sep '|' _ _ (noPipe_segCompletion r)]
  rw [splitOnChar_append_sep '|' _ _ (noPipe_segPatterns r hpat)]
  rw [splitOnChar_append_sep '|' _ _ (noPipe_segProps r hprop)]
  rw [splitOnChar_no_sep '|' _ (noPipe_segStrength r)]

theorem expandSummary_fields (s : String) (hne : s ≠ "") (d0 d1 d2 d3 d4 : List Char)
    (hsplit : splitOnChar '|' s.data = [d0, d1, d2, d3, d4]) :
    expandSummary s =
      { maxDepth := jsParseInt (sliceOrZero (some d0) 1)
      , completionRatio := (jsParseInt (sliceOrZero (some d1) 1)).map (fun z =>
          JSNum.div ⟨z, 1⟩ ⟨100, 1⟩)
      , fractalMetrics :=
        { branchingFactor := 0
        , depthConsistency := 0
        , crossBranchSimilarity := 0
        , patternStrength := (jsParseInt (sliceOrZero (some d4) 1)).map (fun z =>
            JSNum.div ⟨z, 1⟩ ⟨100, 1⟩)
        , recursivePatterns := ((splitOnChar ',' (jsSliceDropEnd 2 1 d2)).filter
            (fun s => s ≠ [])).map (fun p =>
            let pieces := splitOnChar '(' p
            let ty := (pieces.get? 0).getD []
            let count := (pieces.get? 1).getD ['0']
            let cs := jsSliceDropEnd 0 1 count
            { type := String.mk (jsTrim ty)
            , occurrences := jsParseInt (if cs = [] then ['0'] else cs)
            , scales := []
            , evolution := []
            , crossBranchOccurrences := 0
            , confidence := 0 })
        , emergentProperties := ((splitOnChar ',' (jsSliceDropEnd 2 1 d3)).filter
            (fun s => s ≠ [])).map (fun p =>
            let pieces := splitOnChar '(' p
            let prop := (pieces.get? 0).getD []
            let st := (pieces.get? 1).getD ('0' :: ['%'])
            let ss := jsSliceDropEnd 0 2 st
            { property := String.mk (jsTrim prop)
            , strength := (jsParseInt (if ss = [] then ['0'] else ss)).map (fun z =>
                JSNum.div ⟨z, 1⟩ ⟨100, 1⟩)
            , relatedPatterns := [] }) } } := by
  unfold expandSummary
  rw [if_neg hne]
  dsimp only
  rw [hsplit]
  rfl

/-! ## C5: value-level lemmas for the `|| 0` guards and the rounding bound -/

theorem jsOrZeroNat_eq (n : Nat) : jsOrZeroNat n = n := by
  unfold jsOrZeroNat
  split
  · omega
  · rfl

theorem jsOrZeroNum_toRat (x : JSNum) (_h : x.den ≠ 0) :
    (jsOrZeroNum x).toRat = x.toRat := by
  unfold jsOrZeroNum
  split
  next heq =>
    simp only [JSNum.eq, decide_eq_true_eq] at heq
    have hnum : x.num = 0 := by
      have hd : ((0 : JSNum)).den = 1 := rfl
      have hn : ((0 : JSNum)).num = 0 := rfl
      rw [hd, hn] at heq
      omega
    show (JSNum.toRat ⟨0, 1⟩) = x.toRat
    unfold JSNum.toRat
    rw [hnum]
    simp
  next => rfl

theorem jsOrZeroNum_den (x : JSNum) (h : x.den ≠ 0) : (jsOrZeroNum x).den ≠ 0 := by
  unfold jsOrZeroNum
  split
  · decide
  · exact h

theorem toFixed0_div100_close (x : JSNum) (hden : x.den ≠ 0) :
    |(JSNum.div ⟨JSNum.toFixed0 (JSNum.mul x ⟨100, 1⟩), 1⟩ ⟨100, 1⟩).toRat - x.toRat| ≤ 1 / 100 := by
  have hD : (0 : Int) < (x.den : Int) := by omega
  have hval : (JSNum.div ⟨JSNum.toFixed0 (JSNum.mul x ⟨100, 1⟩), 1⟩ ⟨100, 1⟩).toRat
      = ((JSNum.toFixed0 (JSNum.mul x ⟨100, 1⟩) : Int) : ℚ) / 100 := by
    unfold JSNum.div
    rw [if_neg (by norm_num), if_neg (by norm_num)]
    unfold JSNum.toRat
    push_cast
    ring
  have hb : (0 : Int) < 2 * ((x.den * 1 : Nat) : Int) := by push_cast; omega
  have hfd : JSNum.toFixed0 (JSNum.mul x ⟨100, 1⟩)
      = (2 * (x.num * 100) + ((x.den * 1 : Nat) : Int)) / (2 * ((x.den * 1 : Nat) : Int)) := by
    show Int.fdiv _ _ = _
    exact Int.fdiv_eq_ediv _ (le_of_lt hb)
  have hlow : (JSNum.toFixed0 (JSNum.mul x ⟨100, 1⟩)) * (2 * ((x.den * 1 : Nat) : Int))
      ≤ 2 * (x.num * 100) + ((x.den * 1 : Nat) : Int) := by
    rw [hfd]
    exact Int.ediv_mul_le _ (ne_of_gt hb)
  have hhigh : 2 * (x.num * 100) + ((x.den * 1 : Nat) : Int)
      < ((JSNum.toFixed0 (JSNum.mul x ⟨100, 1⟩)) + 1) * (2 * ((x.den * 1 : Nat) : Int)) := by
    rw [hfd]
    exact Int.lt_ediv_add_one_mul_self _ hb
  have hDq : (0 : ℚ) < (x.den : ℚ) := by exact_mod_cast hD
  have hq1 : ((JSNum.toFixed0 (JSNum.mul x ⟨100, 1⟩) : Int) : ℚ) * (2 * (x.den : ℚ))
      ≤ 2 * ((x.num : ℚ) * 100) + (x.den : ℚ) := by
    have h1 : (((JSNum.toFixed0 (JSNum.mul x ⟨100, 1⟩)) * (2 * ((x.den * 1 : Nat) : Int)) : Int) : ℚ)
        ≤ ((2 * (x.num * 100) + ((x.den * 1 : Nat) : Int) : Int) : ℚ) := Int.cast_le.mpr hlow
    push_cast at h1
    linarith
  have hq2 : 2 * ((x.num : ℚ) * 100) + (x.den : ℚ)
      < (((JSNum.toFixed0 (JSNum.mul x ⟨100, 1⟩) : Int) : ℚ) + 1) * (2 * (x.den : ℚ)) := by
    have h1 : ((2 * (x.num * 100) + ((x.den * 1 : Nat) : Int) : Int) : ℚ)
        < ((((JSNum.toFixed0 (JSNum.mul x ⟨100, 1⟩)) + 1) * (2 * ((x.den * 1 : Nat) : Int)) : Int) : ℚ) :=
      Int.cast_lt.mpr hhigh
    push_cast at h1
    linarith
  rw [hval]
  show |_ - x.toRat| ≤ _
  unfold JSNum.toRat
  have hne2 : ((x.den : ℚ)) ≠ 0 := ne_of_gt hDq
  have heq : ((JSNum.toFixed0 (JSNum.mul x ⟨100, 1⟩) : Int) : ℚ) / 100 - (x.num : ℚ) / (x.den : ℚ)
      = (((JSNum.toFixed0 (JSNum.mul x ⟨100, 1⟩) : Int) : ℚ) * (x.den : ℚ) - 100 * (x.num : ℚ))
        / (100 * (x.den : ℚ)) := by
    field_simp
  rw [heq, abs_div, abs_of_pos (by positivity : (0 : ℚ) < 100 * (x.den : ℚ))]
  rw [div_le_div_iff₀ (by positivity) (by norm_num : (0 : ℚ) < 100)]
  have habs : |((JSNum.toFixed0 (JSNum.mul x ⟨100, 1⟩) : Int) : ℚ) * (x.den : ℚ)
      - 100 * (x.num : ℚ)| ≤ (x.den : ℚ) := by
    rw [abs_le]
    constructor
    · linarith
    · linarith
  nlinarith [habs]

/-- C5: encode-decode round trip.  For any analysis whose two encoded
pattern types and property names contain no `|` (the encoder's separator),
whose `completionRatio` is a well-formed rational, and whose
`patternStrength` is finite, decoding the encoded summary recovers
`maxDepth` exactly, `completionRatio` and `patternStrength` to within
`1/100` (percentage rounding), while every decoded pattern comes back with
empty `scales` and `evolution` and every decoded emergent property with
empty `relatedPatterns` — the encoding is lossy on exactly those fields. -/
theorem claim_c5_roundtrip (r : FractalAnalysis)
    (hpat : ∀ p ∈ r.fractalMetrics.recursivePatterns.take 2, noPipe p.type.data)
    (hprop : ∀ p ∈ r.fractalMetrics.emergentProperties.take 2, noPipe p.property.data)
    (hden : r.completionRatio.den ≠ 0)
    (hfin : ∃ q, r.fractalMetrics.patternStrength = JVal.fin q ∧ q.den ≠ 0) :
    (expandSummary (summarizeAnalysis r)).maxDepth = some (r.maxDepth : Int) ∧
    (∃ c, (expandSummary (summarizeAnalysis r)).completionRatio = some c ∧
      |c.toRat - r.completionRatio.toRat| ≤ 1 / 100) ∧
    (∃ q s, r.fractalMetrics.patternStrength = JVal.fin q ∧
      (expandSummary (summarizeAnalysis r)).fractalMetrics.patternStrength = some s ∧
      |s.toRat - q.toRat| ≤ 1 / 100) ∧
    (∀ p ∈ (expandSummary (summarizeAnalysis r)).fractalMetrics.recursivePatterns,
      p.scales = [] ∧ p.evolution = []) ∧
    (∀ p ∈ (expandSummary (summarizeAnalysis r)).fractalMetrics.emergentProperties,
      p.relatedPatterns = []) := by
  have hfields := expandSummary_fields (summarizeAnalysis r) (summarizeAnalysis_ne_empty r)
    (segDepthChars r) (segCompletionChars r) (segPatternsChars r) (segPropsChars r)
    (segStrengthChars r) (split_summarize r hpat hprop)
  have hpct : ∀ c, (['%'] : List Char).head? = some c → isDigitChar c = false := by
    intro c hc
    cases hc
    decide
  refine ⟨?_, ?_, ?_, ?_, ?_⟩
  · rw [hfields]
    show jsParseInt (sliceOrZero (some (segDepthChars r)) 1) = some (r.maxDepth : Int)
    have hslice : sliceOrZero (some (segDepthChars r)) 1
        = natRender (jsOrZeroNat r.maxDepth) := by
      unfold segDepthChars sliceOrZero jsSliceFrom
      dsimp only
      simp only [List.drop_succ_cons, List.drop_zero]
      rw [if_neg (natRender_ne_nil _)]
    rw [hslice, jsParseInt_natRender, jsOrZeroNat_eq]
  · refine ⟨JSNum.div ⟨JSNum.toFixed0 (JSNum.mul (jsOrZeroNum r.completionRatio) ⟨100, 1⟩), 1⟩
      ⟨100, 1⟩, ?_, ?_⟩
    · rw [hfields]
      show (jsParseInt (sliceOrZero (some (segCompletionChars r)) 1)).map _ = _
      have hslice : sliceOrZero (some (segCompletionChars r)) 1
          = intRender (JSNum.toFixed0 (JSNum.mul (jsOrZeroNum r.completionRatio) ⟨100, 1⟩))
            ++ ['%'] := by
        unfold segCompletionChars sliceOrZero jsSliceFrom
        dsimp only
        simp only [List.drop_succ_cons, List.drop_zero]
        rw [if_neg (by simp)]
      rw [hslice]
      rw [jsParseInt_intRender_append _ _ hpct]
      rfl
    · have hb := toFixed0_div100_close (jsOrZeroNum r.completionRatio)
        (jsOrZeroNum_den r.completionRatio hden)
      rw [jsOrZeroNum_toRat r.completionRatio hden] at hb
      exact hb
  · obtain ⟨q, hq, hqden⟩ := hfin
    refine ⟨q, JSNum.div ⟨JSNum.toFixed0 (JSNum.mul (jsOrZeroNum q) ⟨100, 1⟩), 1⟩ ⟨100, 1⟩,
      hq, ?_, ?_⟩
    · rw [hfields]
      show (jsParseInt (sliceOrZero (some (segStrengthChars r)) 1)).map _ = _
      have hseg : segStrengthChars r
          = 'S' :: (intRender (JSNum.toFixed0 (JSNum.mul (jsOrZeroNum q) ⟨100, 1⟩)) ++ ['%']) := by
        unfold segStrengthChars
        rw [hq]
        rfl
      rw [hseg]
      have hslice : sliceOrZero
          (some ('S' :: (intRender (JSNum.toFixed0 (JSNum.mul (jsOrZeroNum q) ⟨100, 1⟩))
            ++ ['%']))) 1
          = intRender (JSNum.toFixed0 (JSNum.mul (jsOrZeroNum q) ⟨100, 1⟩)) ++ ['%'] := by
        unfold sliceOrZero jsSliceFrom
        dsimp only
        simp only [List.drop_succ_cons, List.drop_zero]
        rw [if_neg (by simp)]
      rw [hslice]
      rw [jsParseInt_intRender_append _ _ hpct]
      rfl
    · have hb := toFixed0_div100_close (jsOrZeroNum q) (jsOrZeroNum_den q hqden)
      rw [jsOrZeroNum_toRat q hqden] at hb
      exact hb
  · intro p hp
    rw [hfields] at hp
    dsimp only at hp
    obtain ⟨pc, hpc, rfl⟩ := List.mem_map.mp hp
    exact ⟨rfl, rfl⟩
  · intro p hp
    rw [hfields] at hp
    dsimp only at hp
    obtain ⟨pc, hpc, rfl⟩ := List.mem_map.mp hp
    rfl

/-- Witness for C5 at a concrete analysis value. -/
theorem claim_c5_roundtrip_witness :
    ((∀ p ∈ exAnalysisValue.fractalMetrics.recursivePatterns.take 2, noPipe p.type.data) ∧
     (∀ p ∈ exAnalysisValue.fractalMetrics.emergentProperties.take 2, noPipe p.property.data) ∧
     exAnalysisValue.completionRatio.den ≠ 0 ∧
     (∃ q, exAnalysisValue.fractalMetrics.patternStrength = JVal.fin q ∧ q.den ≠ 0)) ∧
    ((expandSummary (summarizeAnalysis exAnalysisValue)).maxDepth
        = some (exAnalysisValue.maxDepth : Int) ∧
     (∃ c, (expandSummary (summarizeAnalysis exAnalysisValue)).completionRatio = some c ∧
       |c.toRat - exAnalysisValue.completionRatio.toRat| ≤ 1 / 100) ∧
     (∃ q s, exAnalysisValue.fractalMetrics.patternStrength = JVal.fin q ∧
       (expandSummary (summarizeAnalysis exAnalysisValue)).fractalMetrics.patternStrength
         = some s ∧
       |s.toRat - q.toRat| ≤ 1 / 100) ∧
     (∀ p ∈ (expandSummary (summarizeAnalysis exAnalysisValue)).fractalMetrics.recursivePatterns,
       p.scales = [] ∧ p.evolution = []) ∧
     (∀ p ∈ (expandSummary (summarizeAnalysis exAnalysisValue)).fractalMetrics.emergentProperties,
       p.relatedPatterns = [])) :=
  ⟨⟨by unfold noPipe; decide, by unfold noPipe; decide, by decide, ⟨⟨2, 5⟩, rfl, by decide⟩⟩,
   claim_c5_roundtrip exAnalysisValue (by unfold noPipe; decide) (by unfold noPipe; decide)
     (by decide) ⟨⟨2, 5⟩, rfl, by decide⟩⟩
